import Mathlib

/-!
Shallow embedding of the seashell instruction-execution harness
(crates/seashell-core), covering the account store resolution chain
(accounts_db.rs), the instruction-account compiler (compile.rs), the
scenario overlay (scenario.rs), the system-variable cache (sysvar.rs)
and the orchestration layer (seashell.rs).

Modeling conventions:
* a 32-byte identifier (solana Pubkey) is modeled as a Nat; the all-zero
  identifier (base58 "11111111111111111111111111111111", which is both
  Pubkey::default() and the system program id) is 0, and the well-known
  sysvar identifiers are distinct positive constants;
* byte strings are List Nat, every real byte being < 256;
* machine integers (u64, i64, u128, f64 bit patterns, u8) are Nat holding
  the little-endian bit pattern, with an explicit % 2^w where the code can
  overflow; signed and floating-point fields are carried as their 64-bit
  patterns because no claim computes with them, only (de)serializes them;
* `panic!`/`unwrap` failure paths become `Except Failure` values, one
  constructor per distinct panic site;
* interior mutability (Cell/RwLock) becomes explicit state passing: a
  function that mutates `&self` in Rust returns the updated structure;
* the external collaborators (RPC transport, execution engine, file
  system) are parameters: the RPC client is an oracle
  `Pubkey -> Option record`, the engine's post-execution account vector is
  an input list, and the flushed scenario file is the value that would be
  written rather than an actual file.
-/

/-- Model of solana Pubkey: an opaque 32-byte key, here a Nat. -/
abbrev Pubkey := Nat

/-- solana_sdk_ids::system_program::id() is the all-zero key, equal to
Pubkey::default(). -/
def systemProgramId : Pubkey := 0

/-- SysvarC1ock11111111111111111111111111111111 -/
def clockId : Pubkey := 101

/-- SysvarEpochSchedu1e111111111111111111111111 -/
def epochScheduleId : Pubkey := 102

/-- SysvarEpochRewards1111111111111111111111111 -/
def epochRewardsId : Pubkey := 103

/-- SysvarRent111111111111111111111111111111111 -/
def rentId : Pubkey := 104

/-- SysvarS1otHashes111111111111111111111111111 -/
def slotHashesId : Pubkey := 105

/-- SysvarStakeHistory1111111111111111111111111 -/
def stakeHistoryId : Pubkey := 106

/-- SysvarLastRestartS1ot1111111111111111111111 -/
def lastRestartSlotId : Pubkey := 107

/-- solana_sysvar_id::ID, the reserved owner of every synthesized sysvar
account (Sysvar1111111111111111111111111111111111). -/
def sysvarOwnerId : Pubkey := 108

/-- Model of solana Account / AccountSharedData: the two Rust types have the
same five fields and the From conversions between them are field-for-field
identities, so a single structure stands for both. -/
structure Account where
  lamports : Nat
  data : List Nat
  owner : Pubkey
  executable : Bool
  rent_epoch : Nat
deriving DecidableEq, Repr

/-- AccountSharedData is the in-store representation; same fields. -/
abbrev AccountSharedData := Account

/-- AccountSharedData::default(): zero balance, empty data, default owner. -/
def Account.default : Account :=
  { lamports := 0, data := [], owner := 0, executable := false, rent_epoch := 0 }

/-- The distinct failure modes of the core (each is a distinct `panic!` /
`unwrap` site in the Rust source):
* `accountNotFound`: fetch_from_rpc with no RPC client configured
  ("Account not found in scenario or accounts. RPC URL must be configured
  to fetch missing accounts.");
* `rpcFetchFailed`: the RPC call itself errored
  ("Failed to fetch account ... from RPC");
* `unknownSysvar`: Sysvars::get / Sysvars::set on an unrecognized id
  ("Unknown sysvar: ...");
* `invalidSysvarEncoding`: the bincode deserialize unwrap inside
  Sysvars::set. -/
inductive Failure where
  | accountNotFound
  | rpcFetchFailed
  | unknownSysvar
  | invalidSysvarEncoding
deriving DecidableEq, Repr

/- ---------------------------------------------------------------------
bincode (fixint little-endian) primitives, as used by bincode::serialize /
bincode::deserialize in sysvar.rs.  bincode's crate-level deserialize allows
trailing bytes, so the typed deserializers below do not demand that the
input be fully consumed.
--------------------------------------------------------------------- -/

/-- Little-endian fixed-width serialization of an integer bit pattern. -/
def serLE : Nat → Nat → List Nat
  | 0, _ => []
  | w + 1, n => n % 256 :: serLE w (n / 256)

/-- Value of a little-endian byte list. -/
def leVal : List Nat → Nat
  | [] => 0
  | b :: rest => b + 256 * leVal rest

/-- bincode u64: 8 bytes little-endian. -/
def ser64 (n : Nat) : List Nat := serLE 8 n

/-- bincode u128: 16 bytes little-endian. -/
def ser128 (n : Nat) : List Nat := serLE 16 n

/-- solana Hash: a raw [u8; 32], serialized as its 32 bytes; the hash is
carried as its 256-bit pattern. -/
def serHash (n : Nat) : List Nat := serLE 32 n

/-- bincode bool: one byte, 1 for true and 0 for false. -/
def serBool (b : Bool) : List Nat := [if b then 1 else 0]

/-- Read a fixed-width little-endian integer, returning the remainder. -/
def readLE (w : Nat) (l : List Nat) : Option (Nat × List Nat) :=
  if w ≤ l.length then some (leVal (l.take w), l.drop w) else none

/-- Read a bincode bool; bincode rejects any byte other than 0 or 1
(InvalidBoolEncoding). -/
def readBool : List Nat → Option (Bool × List Nat)
  | 0 :: rest => some (false, rest)
  | 1 :: rest => some (true, rest)
  | _ => none

/-- Read a bincode u8: a single byte. -/
def readU8 : List Nat → Option (Nat × List Nat)
  | b :: rest => some (b, rest)
  | [] => none

theorem serLE_length (w n : Nat) : (serLE w n).length = w := by
  induction w generalizing n with
  | zero => rfl
  | succ w ih => simp [serLE, ih]

theorem leVal_serLE (w n : Nat) : leVal (serLE w n) = n % 256 ^ w := by
  induction w generalizing n with
  | zero => simp [serLE, leVal, Nat.mod_one]
  | succ w ih =>
    simp only [serLE, leVal, ih]
    rw [pow_succ, mul_comm (256 ^ w) 256, Nat.mod_mul]

theorem take_length_append {α : Type} (w : Nat) (l rest : List α)
    (h : l.length = w) : (l ++ rest).take w = l := by
  subst h
  rw [List.take_append_eq_append_take]
  simp

theorem drop_length_append {α : Type} (w : Nat) (l rest : List α)
    (h : l.length = w) : (l ++ rest).drop w = rest := by
  subst h
  rw [List.drop_append_eq_append_drop]
  simp

theorem readLE_serLE (w n : Nat) (rest : List Nat) (h : n < 256 ^ w) :
    readLE w (serLE w n ++ rest) = some (n, rest) := by
  have hlen : (serLE w n).length = w := serLE_length w n
  have htake : (serLE w n ++ rest).take w = serLE w n :=
    take_length_append w _ rest hlen
  have hdrop : (serLE w n ++ rest).drop w = rest :=
    drop_length_append w _ rest hlen
  simp [readLE, List.length_append, hlen, htake, hdrop, leVal_serLE,
    Nat.mod_eq_of_lt h, Nat.le_add_right]

/- ---------------------------------------------------------------------
sysvar.rs: the typed system-variable cache.  The seven typed fields come
from the solana interface crates; their field lists and serde layouts are
reproduced here (bincode fixint little-endian, struct = fields in order,
Vec = u64 length prefix + elements, newtype wrappers transparent).
--------------------------------------------------------------------- -/

/-- solana_clock::Clock.  epoch_start_timestamp and unix_timestamp are i64
in Rust; they are carried as their unsigned 64-bit patterns. -/
structure Clock where
  slot : Nat
  epoch_start_timestamp : Nat
  epoch : Nat
  leader_schedule_epoch : Nat
  unix_timestamp : Nat
deriving DecidableEq, Repr

def Clock.default : Clock := ⟨0, 0, 0, 0, 0⟩

def serClock (c : Clock) : List Nat :=
  ser64 c.slot ++ ser64 c.epoch_start_timestamp ++ ser64 c.epoch ++
    ser64 c.leader_schedule_epoch ++ ser64 c.unix_timestamp

def readClock (l : List Nat) : Option (Clock × List Nat) := do
  let (slot, l) ← readLE 8 l
  let (est, l) ← readLE 8 l
  let (epoch, l) ← readLE 8 l
  let (lse, l) ← readLE 8 l
  let (ts, l) ← readLE 8 l
  pure (⟨slot, est, epoch, lse, ts⟩, l)

/-- solana_epoch_schedule::EpochSchedule. -/
structure EpochSchedule where
  slots_per_epoch : Nat
  leader_schedule_slot_offset : Nat
  warmup : Bool
  first_normal_epoch : Nat
  first_normal_slot : Nat
deriving DecidableEq, Repr

/-- EpochSchedule::without_warmup(): custom(DEFAULT_SLOTS_PER_EPOCH,
DEFAULT_LEADER_SCHEDULE_SLOT_OFFSET, false) with both defaults 432000. -/
def EpochSchedule.without_warmup : EpochSchedule :=
  ⟨432000, 432000, false, 0, 0⟩

def serEpochSchedule (e : EpochSchedule) : List Nat :=
  ser64 e.slots_per_epoch ++ ser64 e.leader_schedule_slot_offset ++
    serBool e.warmup ++ ser64 e.first_normal_epoch ++ ser64 e.first_normal_slot

def readEpochSchedule (l : List Nat) : Option (EpochSchedule × List Nat) := do
  let (spe, l) ← readLE 8 l
  let (lsso, l) ← readLE 8 l
  let (w, l) ← readBool l
  let (fne, l) ← readLE 8 l
  let (fns, l) ← readLE 8 l
  pure (⟨spe, lsso, w, fne, fns⟩, l)

/-- solana_epoch_rewards::EpochRewards.  parent_blockhash is a 32-byte Hash
carried as its 256-bit pattern; total_points is a u128. -/
structure EpochRewards where
  distribution_starting_block_height : Nat
  num_partitions : Nat
  parent_blockhash : Nat
  total_points : Nat
  total_rewards : Nat
  distributed_rewards : Nat
  active : Bool
deriving DecidableEq, Repr

def EpochRewards.default : EpochRewards := ⟨0, 0, 0, 0, 0, 0, false⟩

def serEpochRewards (e : EpochRewards) : List Nat :=
  ser64 e.distribution_starting_block_height ++ ser64 e.num_partitions ++
    serHash e.parent_blockhash ++ ser128 e.total_points ++
    ser64 e.total_rewards ++ ser64 e.distributed_rewards ++ serBool e.active

def readEpochRewards (l : List Nat) : Option (EpochRewards × List Nat) := do
  let (dsbh, l) ← readLE 8 l
  let (np, l) ← readLE 8 l
  let (pbh, l) ← readLE 32 l
  let (tp, l) ← readLE 16 l
  let (tr, l) ← readLE 8 l
  let (dr, l) ← readLE 8 l
  let (a, l) ← readBool l
  pure (⟨dsbh, np, pbh, tp, tr, dr, a⟩, l)

/-- solana_rent::Rent.  exemption_threshold is an f64 carried as its 64-bit
pattern; burn_percent is a u8. -/
structure Rent where
  lamports_per_byte_year : Nat
  exemption_threshold : Nat
  burn_percent : Nat
deriving DecidableEq, Repr

/-- Rent::default(): lamports_per_byte_year = 3480, exemption_threshold =
2.0 (f64 bit pattern 0x4000000000000000), burn_percent = 50. -/
def Rent.default : Rent := ⟨3480, 4611686018427387904, 50⟩

def serRent (r : Rent) : List Nat :=
  ser64 r.lamports_per_byte_year ++ serLE 8 r.exemption_threshold ++
    [r.burn_percent % 256]

def readRent (l : List Nat) : Option (Rent × List Nat) := do
  let (lpby, l) ← readLE 8 l
  let (et, l) ← readLE 8 l
  let (bp, l) ← readU8 l
  pure (⟨lpby, et, bp⟩, l)

/-- solana_slot_hashes::SlotHashes: a newtype over Vec<(Slot, Hash)>. -/
abbrev SlotHashes := List (Nat × Nat)

/-- solana_slot_hashes::MAX_ENTRIES. -/
def SLOT_HASHES_MAX_ENTRIES : Nat := 512

def serSlotHash (e : Nat × Nat) : List Nat := ser64 e.1 ++ serHash e.2

def serSlotHashes (sh : SlotHashes) : List Nat :=
  ser64 sh.length ++ sh.flatMap serSlotHash

def readSlotHash (l : List Nat) : Option ((Nat × Nat) × List Nat) := do
  let (s, l) ← readLE 8 l
  let (h, l) ← readLE 32 l
  pure ((s, h), l)

/-- Read a bincode Vec payload: n elements with the given element reader. -/
def readVec {α : Type} (rd : List Nat → Option (α × List Nat)) :
    Nat → List Nat → Option (List α × List Nat)
  | 0, l => some ([], l)
  | n + 1, l => do
    let (x, l) ← rd l
    let (xs, l) ← readVec rd n l
    pure (x :: xs, l)

def readSlotHashes (l : List Nat) : Option (SlotHashes × List Nat) := do
  let (n, l) ← readLE 8 l
  readVec readSlotHash n l

/-- solana_stake_interface StakeHistoryEntry: three u64 fields
(effective, activating, deactivating). -/
structure StakeHistoryEntry where
  effective : Nat
  activating : Nat
  deactivating : Nat
deriving DecidableEq, Repr

def StakeHistoryEntry.default : StakeHistoryEntry := ⟨0, 0, 0⟩

/-- StakeHistory: a newtype over Vec<(Epoch, StakeHistoryEntry)>. -/
abbrev StakeHistory := List (Nat × StakeHistoryEntry)

def serStakeHistoryEntry (e : Nat × StakeHistoryEntry) : List Nat :=
  ser64 e.1 ++ ser64 e.2.effective ++ ser64 e.2.activating ++
    ser64 e.2.deactivating

def serStakeHistory (sh : StakeHistory) : List Nat :=
  ser64 sh.length ++ sh.flatMap serStakeHistoryEntry

def readStakeHistoryEntry (l : List Nat) :
    Option ((Nat × StakeHistoryEntry) × List Nat) := do
  let (ep, l) ← readLE 8 l
  let (ef, l) ← readLE 8 l
  let (ac, l) ← readLE 8 l
  let (de, l) ← readLE 8 l
  pure ((ep, ⟨ef, ac, de⟩), l)

def readStakeHistory (l : List Nat) : Option (StakeHistory × List Nat) := do
  let (n, l) ← readLE 8 l
  readVec readStakeHistoryEntry n l

/-- solana_sysvar LastRestartSlot: a single u64 field. -/
abbrev LastRestartSlot := Nat

def serLastRestartSlot (s : LastRestartSlot) : List Nat := ser64 s

def readLastRestartSlot (l : List Nat) : Option (LastRestartSlot × List Nat) :=
  readLE 8 l

/-- sysvar.rs struct Sysvars: one typed field per well-known variable.  The
RwLock wrappers are interior mutability and disappear in the model. -/
structure Sysvars where
  clock : Clock
  epoch_schedule : EpochSchedule
  epoch_rewards : EpochRewards
  rent : Rent
  slot_hashes : SlotHashes
  stake_history : StakeHistory
  last_restart_slot : LastRestartSlot
deriving DecidableEq, Repr

/-- Sysvars::default(): cross-field defaults.  SlotHashes::new sorts the 512
all-(0, default) entries (a no-op here); StakeHistory::default().add(0,
default entry) yields one entry for the default clock's epoch. -/
def Sysvars.default : Sysvars :=
  { clock := Clock.default
    epoch_schedule := EpochSchedule.without_warmup
    epoch_rewards := EpochRewards.default
    rent := Rent.default
    slot_hashes := List.replicate SLOT_HASHES_MAX_ENTRIES (0, 0)
    stake_history := [(0, StakeHistoryEntry.default)]
    last_restart_slot := 0 }

/-- Sysvars::is_sysvar: membership in the fixed recognized set. -/
def Sysvars.is_sysvar (sysvar : Pubkey) : Bool :=
  sysvar == clockId || sysvar == epochScheduleId || sysvar == epochRewardsId ||
    sysvar == rentId || sysvar == slotHashesId || sysvar == stakeHistoryId ||
    sysvar == lastRestartSlotId

/-- AccountSharedData::new_data(lamports, data, &SYSVAR): bincode-serialized
payload, owner = the reserved sysvar owner, executable false, rent_epoch 0.
The serialization of the payload is already applied by the caller here. -/
def sysvarAccount (lamports : Nat) (data : List Nat) : AccountSharedData :=
  { lamports := lamports, data := data, owner := sysvarOwnerId,
    executable := false, rent_epoch := 0 }

/-- Sysvars::get.  Mirrors the match in sysvar.rs: every branch wraps the
typed field in AccountSharedData::new_data(0, value, &SYSVAR) — except the
EpochRewards branch, which passes `bincode::serialize(&value)` (a Vec<u8>)
to new_data, so the stored data is the bincode serialization *of that byte
vector* (an 8-byte length prefix followed by the bytes).  The final `panic!
("Unknown sysvar")` is the `unknownSysvar` failure. -/
def Sysvars.get (sv : Sysvars) (sysvar : Pubkey) :
    Except Failure AccountSharedData :=
  if sysvar == clockId then
    .ok (sysvarAccount 0 (serClock sv.clock))
  else if sysvar == epochScheduleId then
    .ok (sysvarAccount 0 (serEpochSchedule sv.epoch_schedule))
  else if sysvar == epochRewardsId then
    .ok (sysvarAccount 0
      (ser64 (serEpochRewards sv.epoch_rewards).length ++
        serEpochRewards sv.epoch_rewards))
  else if sysvar == rentId then
    .ok (sysvarAccount 0 (serRent sv.rent))
  else if sysvar == slotHashesId then
    .ok (sysvarAccount 0 (serSlotHashes sv.slot_hashes))
  else if sysvar == stakeHistoryId then
    .ok (sysvarAccount 0 (serStakeHistory sv.stake_history))
  else if sysvar == lastRestartSlotId then
    .ok (sysvarAccount 0 (serLastRestartSlot sv.last_restart_slot))
  else
    .error .unknownSysvar

/-- Sysvars::set.  Each recognized branch bincode-deserializes the record's
data into the typed field; the `.unwrap()` on a failed deserialize is the
`invalidSysvarEncoding` failure, and the final `panic!("Unknown sysvar")`
is `unknownSysvar`. -/
def Sysvars.set (sv : Sysvars) (sysvar : Pubkey) (account : AccountSharedData) :
    Except Failure Sysvars :=
  if sysvar == clockId then
    match readClock account.data with
    | some (v, _) => .ok { sv with clock := v }
    | none => .error .invalidSysvarEncoding
  else if sysvar == epochScheduleId then
    match readEpochSchedule account.data with
    | some (v, _) => .ok { sv with epoch_schedule := v }
    | none => .error .invalidSysvarEncoding
  else if sysvar == epochRewardsId then
    match readEpochRewards account.data with
    | some (v, _) => .ok { sv with epoch_rewards := v }
    | none => .error .invalidSysvarEncoding
  else if sysvar == rentId then
    match readRent account.data with
    | some (v, _) => .ok { sv with rent := v }
    | none => .error .invalidSysvarEncoding
  else if sysvar == slotHashesId then
    match readSlotHashes account.data with
    | some (v, _) => .ok { sv with slot_hashes := v }
    | none => .error .invalidSysvarEncoding
  else if sysvar == stakeHistoryId then
    match readStakeHistory account.data with
    | some (v, _) => .ok { sv with stake_history := v }
    | none => .error .invalidSysvarEncoding
  else if sysvar == lastRestartSlotId then
    match readLastRestartSlot account.data with
    | some (v, _) => .ok { sv with last_restart_slot := v }
    | none => .error .invalidSysvarEncoding
  else
    .error .unknownSysvar

/- ---------------------------------------------------------------------
scenario.rs: the persisted overlay.  The gzip/file layer is external; the
model works with the value that is (de)serialized: a map from identifier
to JsonAccount, account data hex-encoded.  HashMap is modeled as an
association list whose insert replaces any previous binding.
--------------------------------------------------------------------- -/

/-- HashMap::insert: bind `k` to `v`, replacing any previous binding. -/
def mapInsert {α : Type} (m : List (Pubkey × α)) (k : Pubkey) (v : α) :
    List (Pubkey × α) :=
  (k, v) :: m.filter (fun p => p.1 != k)

/-- HashMap::get. -/
def mapGet {α : Type} (m : List (Pubkey × α)) (k : Pubkey) : Option α :=
  (m.find? (fun p => p.1 == k)).map (fun p => p.2)

/-- serde_with::hex::Hex encoding digit (lowercase). -/
def hexDigit (n : Nat) : Char := Char.ofNat (if n < 10 then 48 + n else 87 + n)

/-- Hex-encode a byte string, two lowercase digits per byte. -/
def hexEncode : List Nat → List Char
  | [] => []
  | b :: rest => hexDigit (b / 16) :: hexDigit (b % 16) :: hexEncode rest

/-- Value of one hex digit; both cases accepted on decode. -/
def hexVal (c : Char) : Option Nat :=
  if 48 ≤ c.toNat ∧ c.toNat ≤ 57 then some (c.toNat - 48)
  else if 97 ≤ c.toNat ∧ c.toNat ≤ 102 then some (c.toNat - 87)
  else if 65 ≤ c.toNat ∧ c.toNat ≤ 70 then some (c.toNat - 55)
  else none

/-- Hex-decode; fails on a stray digit or a non-hex character. -/
def hexDecode : List Char → Option (List Nat)
  | [] => some []
  | c1 :: c2 :: rest => do
    let h ← hexVal c1
    let lo ← hexVal c2
    let tail ← hexDecode rest
    pure ((16 * h + lo) :: tail)
  | [_] => none

/-- scenario.rs struct JsonAccount: the textual form of one account in the
persisted scenario file; data is hex-encoded text, numeric fields default
to zero when absent. -/
structure JsonAccount where
  lamports : Nat
  data : List Char
  owner : Pubkey
  executable : Bool
  rent_epoch : Nat
deriving DecidableEq, Repr

/-- From<Account> for JsonAccount composed with the serde hex field
encoding: the serialization direction used by the teardown flush. -/
def JsonAccount.ofAccount (a : Account) : JsonAccount :=
  { lamports := a.lamports, data := hexEncode a.data, owner := a.owner,
    executable := a.executable, rent_epoch := a.rent_epoch }

/-- From<JsonAccount> for Account composed with the serde hex field
decoding: the deserialization direction used by from_file.  The hex decode
is the only fallible step. -/
def JsonAccount.toAccount (j : JsonAccount) : Option Account :=
  (hexDecode j.data).map (fun d =>
    { lamports := j.lamports, data := d, owner := j.owner,
      executable := j.executable, rent_epoch := j.rent_epoch })

/-- The RPC collaborator as an oracle: the response of
RpcClient::get_account for each identifier, none meaning the call errors. -/
abbrev RpcOracle := Pubkey → Option Account

/-- scenario.rs struct Scenario.  The Cell/Arc<RwLock<..>> wrappers are
interior mutability and disappear; `data` keeps the association-list map;
`path` is the file path name, abstracted to a Nat. -/
structure Scenario where
  should_persist : Bool
  dirty : Bool
  data : List (Pubkey × AccountSharedData)
  path : Option Nat
  rpc_client : Option RpcOracle

/-- Scenario::default(): empty, no path, no RPC, nothing persisted. -/
def Scenario.default : Scenario :=
  { should_persist := false, dirty := false, data := [], path := none,
    rpc_client := none }

/-- The decoding half of read_json_gz for the scenario map: convert each
JsonAccount; any failure is the deserialize unwrap panic in from_file. -/
def decodeEntries : List (Pubkey × JsonAccount) →
    Option (List (Pubkey × Account))
  | [] => some []
  | (k, j) :: rest =>
    match JsonAccount.toAccount j, decodeEntries rest with
    | some a, some tl => some ((k, a) :: tl)
    | _, _ => none

/-- Scenario::from_file.  `file` is the parsed content of the path when it
exists (none = the file does not exist).  A malformed existing file makes
the load fail (the unwrap in read_json_gz), giving the outer none. -/
def Scenario.from_file (path : Nat) (file : Option (List (Pubkey × JsonAccount))) :
    Option Scenario :=
  match file with
  | none =>
    some { should_persist := true, dirty := false, data := [],
           path := some path, rpc_client := none }
  | some entries =>
    (decodeEntries entries).map (fun data =>
      { should_persist := true, dirty := false, data := data,
        path := some path, rpc_client := none })

/-- Scenario::from_file_with_rpc: from_file plus an RPC client. -/
def Scenario.from_file_with_rpc (path : Nat)
    (file : Option (List (Pubkey × JsonAccount))) (rpc : RpcOracle) :
    Option Scenario :=
  (Scenario.from_file path file).map (fun s => { s with rpc_client := some rpc })

/-- Scenario::rpc_only: remote source, no path, persistence disabled. -/
def Scenario.rpc_only (rpc : RpcOracle) : Scenario :=
  { should_persist := false, dirty := false, data := [], path := none,
    rpc_client := some rpc }

/-- Scenario::get: a non-mutating map lookup. -/
def Scenario.get (s : Scenario) (pubkey : Pubkey) : Option AccountSharedData :=
  mapGet s.data pubkey

/-- Scenario::insert: store the record and mark the overlay dirty. -/
def Scenario.insert (s : Scenario) (pubkey : Pubkey)
    (account : AccountSharedData) : Scenario :=
  { s with dirty := true, data := mapInsert s.data pubkey account }

/-- Scenario::fetch_from_rpc.  Panics (accountNotFound) when no RPC client
is configured, panics (rpcFetchFailed) when the call errors; on success
marks dirty, stores and returns the record. -/
def Scenario.fetch_from_rpc (s : Scenario) (pubkey : Pubkey) :
    Except Failure (AccountSharedData × Scenario) :=
  match s.rpc_client with
  | none => .error .accountNotFound
  | some rpc =>
    match rpc pubkey with
    | none => .error .rpcFetchFailed
    | some account =>
      .ok (account,
        { s with dirty := true, data := mapInsert s.data pubkey account })

/-- The Drop impl's guard and payload: the file write happens iff `dirty`
and `should_persist` and a path is configured, and writes the JsonAccount
serialization of every entry to that path. -/
def Scenario.dropOutput (s : Scenario) :
    Option (Nat × List (Pubkey × JsonAccount)) :=
  if s.dirty && s.should_persist then
    s.path.map (fun p =>
      (p, s.data.map (fun e => (e.1, JsonAccount.ofAccount e.2))))
  else
    none

/-- The overlay mutations available during a session (get is non-mutating
and omitted; a read never changes the overlay). -/
inductive ScenarioOp where
  | insertOp (pubkey : Pubkey) (account : AccountSharedData)
  | fetchOp (pubkey : Pubkey)

/-- One overlay mutation.  A failed fetch panics in Rust; unwinding runs no
further operations but still runs Drop, so modeling it as a no-op only
strengthens the statements proved over arbitrary operation lists. -/
def Scenario.applyOp (s : Scenario) : ScenarioOp → Scenario
  | .insertOp pubkey account => s.insert pubkey account
  | .fetchOp pubkey =>
    match s.fetch_from_rpc pubkey with
    | .ok (_, s') => s'
    | .error _ => s

/-- A session's overlay mutations, in order. -/
def Scenario.applyOps (s : Scenario) (ops : List ScenarioOp) : Scenario :=
  ops.foldl Scenario.applyOp s

/-- The file writes a whole session performs: none during the operations,
and the Drop flush (if any) at teardown. -/
def Scenario.sessionWrites (s : Scenario) (ops : List ScenarioOp) :
    List (Nat × List (Pubkey × JsonAccount)) :=
  (Scenario.applyOps s ops).dropOutput.toList

/- ---------------------------------------------------------------------
The instruction model (solana_instruction), as consumed by accounts_db.rs
and compile.rs.
--------------------------------------------------------------------- -/

/-- solana_instruction::AccountMeta. -/
structure AccountMeta where
  pubkey : Pubkey
  is_signer : Bool
  is_writable : Bool
deriving DecidableEq, Repr

/-- solana_instruction::Instruction. -/
structure Instruction where
  program_id : Pubkey
  accounts : List AccountMeta
  data : List Nat
deriving DecidableEq, Repr

/- ---------------------------------------------------------------------
accounts_db.rs: the layered account store.  The ProgramCacheForTxBatch
field is consulted only by the external execution engine and by no claim,
so it is omitted from the model.
--------------------------------------------------------------------- -/

/-- accounts_db.rs struct AccountsDb (scenario overlay, base map, typed
sysvar cache). -/
structure AccountsDb where
  scenario : Scenario
  accounts : List (Pubkey × AccountSharedData)
  sysvars : Sysvars

/-- AccountsDb::default(). -/
def AccountsDb.default : AccountsDb :=
  { scenario := Scenario.default, accounts := [], sysvars := Sysvars.default }

/-- AccountsDb::account_maybe: sysvar cache, then scenario overlay, then
base map, no remote fallback.  Under the is_sysvar guard Sysvars::get
cannot panic, hence the toOption. -/
def AccountsDb.account_maybe (db : AccountsDb) (pubkey : Pubkey) :
    Option AccountSharedData :=
  if Sysvars.is_sysvar pubkey then
    (db.sysvars.get pubkey).toOption
  else
    match db.scenario.get pubkey with
    | some account => some account
    | none =>
      match mapGet db.accounts pubkey with
      | some account => some account
      | none => none

/-- AccountsDb::account: account_maybe, falling back to the overlay's
remote fetch (which stores into the overlay, hence the returned db). -/
def AccountsDb.account (db : AccountsDb) (pubkey : Pubkey) :
    Except Failure (AccountSharedData × AccountsDb) :=
  match db.account_maybe pubkey with
  | some account => .ok (account, db)
  | none =>
    (db.scenario.fetch_from_rpc pubkey).map
      (fun r => (r.1, { db with scenario := r.2 }))

/-- AccountsDb::accounts_for_instruction body, folding over the account
metas with the program pair already placed first. -/
def accountsForRefs (allow_uninitialized_accounts : Bool)
    (metas : List AccountMeta) (acc : List (Pubkey × AccountSharedData))
    (db : AccountsDb) :
    Except Failure (List (Pubkey × AccountSharedData) × AccountsDb) :=
  match metas with
  | [] => .ok (acc, db)
  | meta :: rest =>
    if allow_uninitialized_accounts then
      let account := (db.account_maybe meta.pubkey).getD Account.default
      accountsForRefs allow_uninitialized_accounts rest
        (acc ++ [(meta.pubkey, account)]) db
    else
      match db.account meta.pubkey with
      | .ok (account, db') =>
        accountsForRefs allow_uninitialized_accounts rest
          (acc ++ [(meta.pubkey, account)]) db'
      | .error e => .error e

/-- AccountsDb::accounts_for_instruction: the program pair first (resolved
with the failing lookup), then one pair per reference in order; with
allow_uninitialized_accounts, an unresolved reference becomes
AccountSharedData::default() instead of failing. -/
def AccountsDb.accounts_for_instruction (db : AccountsDb)
    (allow_uninitialized_accounts : Bool) (instruction : Instruction) :
    Except Failure (List (Pubkey × AccountSharedData) × AccountsDb) :=
  match db.account instruction.program_id with
  | .ok (programAccount, db1) =>
    accountsForRefs allow_uninitialized_accounts instruction.accounts
      [(instruction.program_id, programAccount)] db1
  | .error e => .error e

/-- AccountsDb::set_account: a recognized sysvar id routes to
Sysvars::set, anything else upserts into the base map. -/
def AccountsDb.set_account (db : AccountsDb) (pubkey : Pubkey)
    (account : AccountSharedData) : Except Failure AccountsDb :=
  if Sysvars.is_sysvar pubkey then
    (db.sysvars.set pubkey account).map (fun sv => { db with sysvars := sv })
  else
    .ok { db with accounts := mapInsert db.accounts pubkey account }

/- ---------------------------------------------------------------------
compile.rs: the pure instruction-account compiler.  The IndexMap is an
insertion-ordered association list with unique keys; get_index_of is the
position of the key in insertion order.
--------------------------------------------------------------------- -/

/-- solana_transaction_context::InstructionAccount (indices are u16
IndexOfAccount in Rust). -/
structure InstructionAccount where
  index_in_transaction : Nat
  index_in_caller : Nat
  index_in_callee : Nat
  is_signer : Bool
  is_writable : Bool
deriving DecidableEq, Repr

/-- IndexMap::entry(k).and_modify(or-flags).or_insert(flags): OR into an
existing entry in place, or append a new entry at the end. -/
def imUpsert (m : List (Pubkey × Bool × Bool)) (k : Pubkey) (s w : Bool) :
    List (Pubkey × Bool × Bool) :=
  match m with
  | [] => [(k, s, w)]
  | (k', s', w') :: rest =>
    if k' == k then (k', s' || s, w' || w) :: rest
    else (k', s', w') :: imUpsert rest k s w

/-- The account_map of compile_accounts_for_instruction: the program id
seeded first with (false, false), then every reference folded in. -/
def buildAccountMap (ixn : Instruction) : List (Pubkey × Bool × Bool) :=
  ixn.accounts.foldl
    (fun m account => imUpsert m account.pubkey account.is_signer account.is_writable)
    [(ixn.program_id, false, false)]

/-- compile.rs INSTRUCTION_PROGRAM_ID_INDEX. -/
def INSTRUCTION_PROGRAM_ID_INDEX : Nat := 0

/-- compile_accounts_for_instruction.  `as u8` on get_index_of's result is
the `% 256`; the is_signer/is_writable closures read the map entry at the
(truncated) global index; index_in_callee is the position of the first
earlier reference with the same global index, defaulting to the entry's
own position. -/
def compile_accounts_for_instruction (ixn : Instruction) :
    List InstructionAccount :=
  let account_map := buildAccountMap ixn
  let keys := account_map.map (fun e => e.1)
  let signerAt := fun (idx : Nat) =>
    ((account_map.get? idx).map (fun e => e.2.1)).getD false
  let writableAt := fun (idx : Nat) =>
    ((account_map.get? idx).map (fun e => e.2.2)).getD false
  let account_indices := ixn.accounts.map (fun account_meta =>
    ((keys.findIdx? (fun k => k == account_meta.pubkey)).getD 0) % 256)
  (List.range account_indices.length).map (fun idx =>
    let global_idx := (account_indices.get? idx).getD 0
    let index_in_callee :=
      ((account_indices.take idx).findIdx? (fun acc_idx => acc_idx == global_idx)).getD idx
    { index_in_transaction := global_idx
      index_in_caller := global_idx
      index_in_callee := index_in_callee
      is_signer := signerAt global_idx
      is_writable := writableAt global_idx })

/- ---------------------------------------------------------------------
seashell.rs: session configuration, airdrop, and the post-execution
reconciliation step of process_instruction.  The execution engine itself
is the external collaborator; its outcome enters the model as the
TransactionContext's post-execution account vector.
--------------------------------------------------------------------- -/

/-- seashell.rs struct Config. -/
structure Config where
  memoize : Bool
  allow_uninitialized_accounts : Bool
deriving DecidableEq, Repr

/-- Config::default(). -/
def Config.default : Config :=
  { memoize := false, allow_uninitialized_accounts := false }

/-- Seashell::airdrop: resolve through the non-failing chain (no remote
fallback), defaulting to AccountSharedData::new(0, 0, &system_program::id());
bump lamports (u64 arithmetic) and write through set_account. -/
def Seashell.airdrop (db : AccountsDb) (pubkey : Pubkey) (amount : Nat) :
    Except Failure AccountsDb :=
  let account := (db.account_maybe pubkey).getD
    { lamports := 0, data := [], owner := systemProgramId,
      executable := false, rent_epoch := 0 }
  let account := { account with lamports := (account.lamports + amount) % 2 ^ 64 }
  db.set_account pubkey account

/-- TransactionContext::find_index_of_account over the post-execution
account vector. -/
def find_index_of_account (ctx : List (Pubkey × AccountSharedData))
    (pubkey : Pubkey) : Option Nat :=
  ctx.findIdx? (fun p => p.1 == pubkey)

/-- The Ok branch of Seashell::process_instruction: walk the instruction's
transaction_accounts; for each pair, look its pubkey up in the (post-
execution) transaction context; when found, take the context's account,
write it back through set_account when memoize is set, and emit it; when
not found, emit the pre-execution pair unchanged. -/
def reconcile (memoize : Bool) (db : AccountsDb)
    (transaction_accounts ctx : List (Pubkey × AccountSharedData)) :
    Except Failure (List (Pubkey × Account) × AccountsDb) :=
  match transaction_accounts with
  | [] => .ok ([], db)
  | (pubkey, account_shared_data) :: rest =>
    match find_index_of_account ctx pubkey with
    | some idx =>
      let account := ((ctx.get? idx).map (fun p => p.2)).getD account_shared_data
      if memoize then
        match db.set_account pubkey account with
        | .ok db' =>
          (reconcile memoize db' rest ctx).map
            (fun r => ((pubkey, account) :: r.1, r.2))
        | .error e => .error e
      else
        (reconcile memoize db rest ctx).map
          (fun r => ((pubkey, account) :: r.1, r.2))
    | none =>
      (reconcile memoize db rest ctx).map
        (fun r => ((pubkey, account_shared_data) :: r.1, r.2))

/- ---------------------------------------------------------------------
Helper lemmas.
--------------------------------------------------------------------- -/

theorem mapGet_insert_self {α : Type} (m : List (Pubkey × α)) (k : Pubkey)
    (v : α) : mapGet (mapInsert m k v) k = some v := by
  simp [mapGet, mapInsert, List.find?]


theorem find_filter_ne {α : Type} (m : List (Pubkey × α)) (k k' : Pubkey)
    (h : k' ≠ k) :
    List.find? (fun p => p.1 == k') (m.filter (fun p => p.1 != k))
      = List.find? (fun p => p.1 == k') m := by
  induction m with
  | nil => rfl
  | cons p rest ih =>
    by_cases hp : p.1 = k'
    · have hkeep : (p.1 != k) = true := by simp [hp, h]
      simp [List.filter_cons, hkeep, List.find?_cons, hp, h]
    · by_cases hkeep : (p.1 != k) = true
      · simp only [List.filter_cons, hkeep, if_true]
        rw [List.find?_cons_of_neg, List.find?_cons_of_neg]
        · exact ih
        · simp [hp]
        · simp [hp]
      · simp only [List.filter_cons, hkeep, if_false, Bool.false_eq_true]
        rw [List.find?_cons_of_neg]
        · exact ih
        · simp [hp]

theorem mapGet_insert_ne {α : Type} (m : List (Pubkey × α)) (k k' : Pubkey)
    (v : α) (h : k' ≠ k) : mapGet (mapInsert m k v) k' = mapGet m k' := by
  simp only [mapGet, mapInsert]
  rw [List.find?_cons_of_neg, find_filter_ne m k k' h]
  simp [Ne.symm h]

theorem sysvar_get_ok (sv : Sysvars) (k : Pubkey)
    (h : Sysvars.is_sysvar k = true) : ∃ a, sv.get k = .ok a := by
  simp only [Sysvars.is_sysvar, Bool.or_eq_true, beq_iff_eq] at h
  rcases h with ((((((h | h) | h) | h) | h) | h) | h) <;> subst h <;>
    exact ⟨_, rfl⟩

theorem is_sysvar_false_parts (k : Pubkey) (h : Sysvars.is_sysvar k = false) :
    (k == clockId) = false ∧ (k == epochScheduleId) = false ∧
    (k == epochRewardsId) = false ∧ (k == rentId) = false ∧
    (k == slotHashesId) = false ∧ (k == stakeHistoryId) = false ∧
    (k == lastRestartSlotId) = false := by
  simp only [Sysvars.is_sysvar, Bool.or_eq_false_iff] at h
  exact ⟨h.1.1.1.1.1.1, h.1.1.1.1.1.2, h.1.1.1.1.2, h.1.1.1.2, h.1.1.2,
    h.1.2, h.2⟩

/- ---------------------------------------------------------------------
C1: resolution precedence.
--------------------------------------------------------------------- -/

/-- C1: resolution precedence is fixed.  For every store and identifier:
a recognized system variable resolves to the system-variable value (which
always exists), and a differently-valued record inserted into the base
store under the same identifier is never returned; a non-sysvar
identifier resolves to the scenario-overlay entry when present, and only
otherwise to the base store; the failing lookup `account` returns exactly
what `account_maybe` returns when that succeeds, and falls back to the
overlay's remote fetch only when the whole non-failing chain missed. -/
theorem account_resolution_precedence (db : AccountsDb) (k : Pubkey) :
    (Sysvars.is_sysvar k = true →
      (∀ a : Account,
        ({ db with accounts := mapInsert db.accounts k a } : AccountsDb).account_maybe k
          = (db.sysvars.get k).toOption) ∧
      db.account_maybe k = (db.sysvars.get k).toOption ∧
      (db.sysvars.get k).toOption.isSome = true) ∧
    (Sysvars.is_sysvar k = false →
      (∀ a : Account,
        ({ db with scenario := db.scenario.insert k a } : AccountsDb).account_maybe k
          = some a) ∧
      (db.scenario.get k = none →
        db.account_maybe k = mapGet db.accounts k)) ∧
    (∀ a : Account, db.account_maybe k = some a → db.account k = .ok (a, db)) ∧
    (db.account_maybe k = none →
      db.account k = (db.scenario.fetch_from_rpc k).map
        (fun r => (r.1, { db with scenario := r.2 }))) := by
  refine ⟨fun hs => ⟨fun a => ?_, ?_, ?_⟩,
    fun hns => ⟨fun a => ?_, fun hsc => ?_⟩, fun a ha => ?_, fun hn => ?_⟩
  · simp [AccountsDb.account_maybe, hs]
  · simp [AccountsDb.account_maybe, hs]
  · obtain ⟨a, ha⟩ := sysvar_get_ok db.sysvars k hs
    simp [ha, Except.toOption]
  · simp [AccountsDb.account_maybe, hns, Scenario.get, Scenario.insert,
      mapGet_insert_self]
  · simp only [AccountsDb.account_maybe, hns, Bool.false_eq_true, if_false,
      hsc]
    cases mapGet db.accounts k <;> rfl
  · simp [AccountsDb.account, ha]
  · simp [AccountsDb.account, hn]

/-- C1 witness: the theorem applied at the default store, once at the
clock sysvar id (a base-store insertion under the same identifier is
invisible) and once at the plain identifier 5 (an overlay insertion wins;
the remote fallback is reached only after the chain missed). -/
theorem account_resolution_precedence_witness :
    ({ AccountsDb.default with
        accounts := mapInsert AccountsDb.default.accounts clockId Account.default } : AccountsDb).account_maybe clockId
      = (AccountsDb.default.sysvars.get clockId).toOption ∧
    ({ AccountsDb.default with
        scenario := AccountsDb.default.scenario.insert 5 Account.default } : AccountsDb).account_maybe 5
      = some Account.default ∧
    AccountsDb.default.account 5
      = (AccountsDb.default.scenario.fetch_from_rpc 5).map
          (fun r => (r.1, { AccountsDb.default with scenario := r.2 })) :=
  ⟨((account_resolution_precedence AccountsDb.default clockId).1 (by decide)).1
      Account.default,
   ((account_resolution_precedence AccountsDb.default 5).2.1 (by decide)).1
      Account.default,
   (account_resolution_precedence AccountsDb.default 5).2.2.2 (by rfl)⟩

/- ---------------------------------------------------------------------
C8: sysvar error taxonomy.
--------------------------------------------------------------------- -/

/-- The recognized-id set failure analysis of Sysvars::set: on a
recognized identifier, set either succeeds or fails with the
invalid-encoding failure. -/
theorem sysvar_set_recognized (sv : Sysvars) (k : Pubkey)
    (a : AccountSharedData) (h : Sysvars.is_sysvar k = true) :
    (sv.set k a).isOk = true ∨ sv.set k a = .error .invalidSysvarEncoding := by
  simp only [Sysvars.is_sysvar, Bool.or_eq_true, beq_iff_eq] at h
  rcases h with ((((((h | h) | h) | h) | h) | h) | h) <;> subst h
  · cases hr : readClock a.data with
    | some v =>
      left
      simp [Sysvars.set, hr, Except.isOk, Except.toBool, clockId]
    | none => right; simp [Sysvars.set, hr, clockId]
  · cases hr : readEpochSchedule a.data with
    | some v =>
      left
      simp [Sysvars.set, hr, Except.isOk, Except.toBool, clockId,
        epochScheduleId]
    | none => right; simp [Sysvars.set, hr, clockId, epochScheduleId]
  · cases hr : readEpochRewards a.data with
    | some v =>
      left
      simp [Sysvars.set, hr, Except.isOk, Except.toBool, clockId,
        epochScheduleId, epochRewardsId]
    | none =>
      right
      simp [Sysvars.set, hr, clockId, epochScheduleId, epochRewardsId]
  · cases hr : readRent a.data with
    | some v =>
      left
      simp [Sysvars.set, hr, Except.isOk, Except.toBool, clockId,
        epochScheduleId, epochRewardsId, rentId]
    | none =>
      right
      simp [Sysvars.set, hr, clockId, epochScheduleId, epochRewardsId, rentId]
  · cases hr : readSlotHashes a.data with
    | some v =>
      left
      simp [Sysvars.set, hr, Except.isOk, Except.toBool, clockId,
        epochScheduleId, epochRewardsId, rentId, slotHashesId]
    | none =>
      right
      simp [Sysvars.set, hr, clockId, epochScheduleId, epochRewardsId,
        rentId, slotHashesId]
  · cases hr : readStakeHistory a.data with
    | some v =>
      left
      simp [Sysvars.set, hr, Except.isOk, Except.toBool, clockId,
        epochScheduleId, epochRewardsId, rentId, slotHashesId, stakeHistoryId]
    | none =>
      right
      simp [Sysvars.set, hr, clockId, epochScheduleId, epochRewardsId,
        rentId, slotHashesId, stakeHistoryId]
  · cases hr : readLastRestartSlot a.data with
    | some v =>
      left
      simp [Sysvars.set, hr, Except.isOk, Except.toBool, clockId,
        epochScheduleId, epochRewardsId, rentId, slotHashesId,
        stakeHistoryId, lastRestartSlotId]
    | none =>
      right
      simp [Sysvars.set, hr, clockId, epochScheduleId, epochRewardsId,
        rentId, slotHashesId, stakeHistoryId, lastRestartSlotId]

/-- C8: system-variable get/set failures are typed and distinct from
account-not-found.  An unrecognized identifier makes both set and get
fail with the unknown-sysvar failure; on a recognized identifier the only
possible set failure is the invalid-encoding one; neither operation can
ever produce the account-not-found failure (the failure modes are the
distinct panic sites of the source, modeled as distinct constructors). -/
theorem sysvar_set_get_error_taxonomy (sv : Sysvars) (k : Pubkey)
    (a : AccountSharedData) :
    (Sysvars.is_sysvar k = false →
      sv.set k a = .error .unknownSysvar ∧
      sv.get k = .error .unknownSysvar) ∧
    (Sysvars.is_sysvar k = true →
      (sv.set k a).isOk = true ∨ sv.set k a = .error .invalidSysvarEncoding) ∧
    sv.set k a ≠ .error .accountNotFound ∧
    sv.get k ≠ .error .accountNotFound := by
  have hunknown : ∀ h : Sysvars.is_sysvar k = false,
      sv.set k a = .error .unknownSysvar ∧ sv.get k = .error .unknownSysvar := by
    intro h
    obtain ⟨h1, h2, h3, h4, h5, h6, h7⟩ := is_sysvar_false_parts k h
    constructor
    · simp [Sysvars.set, h1, h2, h3, h4, h5, h6, h7]
    · simp [Sysvars.get, h1, h2, h3, h4, h5, h6, h7]
  refine ⟨hunknown, sysvar_set_recognized sv k a, ?_, ?_⟩
  · cases hk : Sysvars.is_sysvar k with
    | false => simp [(hunknown hk).1]
    | true =>
      rcases sysvar_set_recognized sv k a hk with hok | henc
      · intro hcontra
        rw [hcontra] at hok
        simp [Except.isOk, Except.toBool] at hok
      · simp [henc]
  · cases hk : Sysvars.is_sysvar k with
    | false => simp [(hunknown hk).2]
    | true =>
      obtain ⟨v, hv⟩ := sysvar_get_ok sv k hk
      simp [hv]

/-- C8 witness: the theorem applied at the unknown identifier 5 (both
operations fail with the unknown-sysvar failure, not account-not-found)
and at the clock identifier with one-byte data (which does not bincode-
decode into a Clock, and indeed set rejects it as an encoding failure). -/
theorem sysvar_set_get_error_taxonomy_witness :
    (Sysvars.default.set 5 Account.default = .error .unknownSysvar ∧
      Sysvars.default.get 5 = .error .unknownSysvar) ∧
    Sysvars.default.set 5 Account.default ≠ .error .accountNotFound ∧
    ((Sysvars.default.set clockId (sysvarAccount 0 [2])).isOk = true ∨
      Sysvars.default.set clockId (sysvarAccount 0 [2])
        = .error .invalidSysvarEncoding) ∧
    Sysvars.default.set clockId (sysvarAccount 0 [2])
      = .error .invalidSysvarEncoding :=
  ⟨(sysvar_set_get_error_taxonomy Sysvars.default 5 Account.default).1
      (by decide),
   (sysvar_set_get_error_taxonomy Sysvars.default 5 Account.default).2.2.1,
   (sysvar_set_get_error_taxonomy Sysvars.default clockId
      (sysvarAccount 0 [2])).2.1 (by decide),
   by rfl⟩

/- ---------------------------------------------------------------------
C7: sysvar account synthesis.
--------------------------------------------------------------------- -/

/-- C7 (failing input): the claim "the returned record's data bytes are
exactly the serialization of the typed field" fails at the epoch-rewards
identifier.  That branch of Sysvars::get passes bincode::serialize(&field)
— a byte vector — to AccountSharedData::new_data, which serializes again,
so the stored data is an 8-byte length prefix (81) followed by the 81
serialized bytes; it is not the field's serialization, and deserializing
it does not give back the typed field's value (the owner, at least, is
the reserved sysvar owner as claimed).  Every other recognized identifier
serializes once, as the claim states. -/
theorem sysvar_get_epoch_rewards_double_serialized :
    Sysvars.default.get epochRewardsId
      = .ok (sysvarAccount 0
          (ser64 81 ++ serEpochRewards EpochRewards.default)) ∧
    ser64 81 ++ serEpochRewards EpochRewards.default
      ≠ serEpochRewards EpochRewards.default ∧
    (readEpochRewards
        (ser64 81 ++ serEpochRewards EpochRewards.default)).map
        (fun p => p.1)
      ≠ some EpochRewards.default ∧
    Sysvars.default.get clockId
      = .ok (sysvarAccount 0 (serClock Clock.default)) ∧
    (readClock (serClock Clock.default)).map (fun p => p.1)
      = some Clock.default :=
  ⟨by rfl, by decide, by decide, by rfl, by decide⟩

/- ---------------------------------------------------------------------
C5: overlay flush policy.
--------------------------------------------------------------------- -/

theorem applyOp_preserves_persistence (s : Scenario) (op : ScenarioOp) :
    (s.applyOp op).should_persist = s.should_persist ∧
    (s.applyOp op).path = s.path := by
  cases op with
  | insertOp k a => exact ⟨rfl, rfl⟩
  | fetchOp k =>
    simp only [Scenario.applyOp, Scenario.fetch_from_rpc]
    cases hc : s.rpc_client with
    | none => exact ⟨rfl, rfl⟩
    | some rpc =>
      cases ho : rpc k with
      | none => refine ⟨?_, ?_⟩ <;> simp [ho]
      | some acct => refine ⟨?_, ?_⟩ <;> simp [ho]

theorem applyOps_preserves_persistence (ops : List ScenarioOp) (s : Scenario) :
    (Scenario.applyOps s ops).should_persist = s.should_persist ∧
    (Scenario.applyOps s ops).path = s.path := by
  induction ops generalizing s with
  | nil => exact ⟨rfl, rfl⟩
  | cons op rest ih =>
    have h := applyOp_preserves_persistence s op
    have h' := ih (s.applyOp op)
    exact ⟨h'.1.trans h.1, h'.2.trans h.2⟩

/-- C5: the overlay flushes at teardown iff its dirty flag is set and
persistence is enabled (a configured path on an instance created with
should_persist).  An rpc-only overlay never writes, whatever mutations the
session performs; a clean overlay never writes even with a path; insert
and a successful remote fetch both leave the dirty flag true
(idempotently — the result is true whatever it was before); and a whole
session performs at most one file write, at teardown. -/
theorem scenario_flush_policy (s : Scenario) (rpc : RpcOracle)
    (ops : List ScenarioOp) (k : Pubkey) (a : AccountSharedData) :
    (s.dropOutput ≠ none ↔
      s.dirty = true ∧ s.should_persist = true ∧ s.path ≠ none) ∧
    (Scenario.applyOps (Scenario.rpc_only rpc) ops).dropOutput = none ∧
    (s.dirty = false → s.dropOutput = none) ∧
    (s.insert k a).dirty = true ∧
    (∀ a' s', s.fetch_from_rpc k = .ok (a', s') → s'.dirty = true) ∧
    (s.sessionWrites ops).length ≤ 1 := by
  refine ⟨?_, ?_, fun hd => ?_, rfl, fun a' s' hf => ?_, ?_⟩
  · cases hd : s.dirty <;> cases hp : s.should_persist <;>
      cases hpath : s.path <;> simp [Scenario.dropOutput, hd, hp, hpath]
  · have hpersist :
        (Scenario.applyOps (Scenario.rpc_only rpc) ops).should_persist = false :=
      (applyOps_preserves_persistence ops (Scenario.rpc_only rpc)).1
    simp [Scenario.dropOutput, hpersist]
  · simp [Scenario.dropOutput, hd]
  · simp only [Scenario.fetch_from_rpc] at hf
    cases hc : s.rpc_client with
    | none => rw [hc] at hf; exact absurd hf (by simp)
    | some oracle =>
      rw [hc] at hf
      cases ho : oracle k with
      | none => simp [ho] at hf
      | some acct =>
        simp only [ho, Except.ok.injEq, Prod.mk.injEq] at hf
        rw [← hf.2]
  · simp only [Scenario.sessionWrites]
    cases (Scenario.applyOps s ops).dropOutput <;> simp [Option.toList]

/-- A constant RPC oracle used by the C5 witness. -/
def rpcW : RpcOracle := fun _ => some Account.default

/-- C5 witness: the flush policy instantiated on concrete overlays — a
clean default overlay does not write; an rpc-only overlay mutated by an
insert still does not write; insert marks dirty; a successful fetch on an
rpc-only overlay leaves the overlay dirty; a session performs at most one
write. -/
theorem scenario_flush_policy_witness :
    Scenario.default.dropOutput = none ∧
    (Scenario.applyOps (Scenario.rpc_only rpcW)
        [ScenarioOp.insertOp 5 Account.default]).dropOutput = none ∧
    (Scenario.default.insert 5 Account.default).dirty = true ∧
    ({ should_persist := false, dirty := true, data := [(5, Account.default)],
        path := none, rpc_client := some rpcW } : Scenario).dirty = true ∧
    (Scenario.default.sessionWrites
        [ScenarioOp.insertOp 5 Account.default]).length ≤ 1 :=
  ⟨(scenario_flush_policy Scenario.default rpcW
      [ScenarioOp.insertOp 5 Account.default] 5 Account.default).2.2.1 rfl,
   (scenario_flush_policy Scenario.default rpcW
      [ScenarioOp.insertOp 5 Account.default] 5 Account.default).2.1,
   (scenario_flush_policy Scenario.default rpcW
      [ScenarioOp.insertOp 5 Account.default] 5 Account.default).2.2.2.1,
   (scenario_flush_policy (Scenario.rpc_only rpcW) rpcW [] 5
      Account.default).2.2.2.2.1 Account.default
      { should_persist := false, dirty := true, data := [(5, Account.default)],
        path := none, rpc_client := some rpcW } (by rfl),
   (scenario_flush_policy Scenario.default rpcW
      [ScenarioOp.insertOp 5 Account.default] 5 Account.default).2.2.2.2.2⟩

/- ---------------------------------------------------------------------
C6: overlay persistence round-trip.
--------------------------------------------------------------------- -/

theorem hexVal_hexDigit : ∀ d : Nat, d < 16 → hexVal (hexDigit d) = some d := by
  decide

theorem hexDecode_hexEncode (l : List Nat) (h : ∀ b ∈ l, b < 256) :
    hexDecode (hexEncode l) = some l := by
  induction l with
  | nil => rfl
  | cons b rest ih =>
    have hb : b < 256 := h b (List.mem_cons_self b rest)
    have hhi : b / 16 < 16 := by omega
    have hlo : b % 16 < 16 := Nat.mod_lt _ (by norm_num)
    have hrest : hexDecode (hexEncode rest) = some rest :=
      ih (fun x hx => h x (List.mem_cons_of_mem b hx))
    simp only [hexEncode, hexDecode, hexVal_hexDigit _ hhi,
      hexVal_hexDigit _ hlo, hrest, Option.bind_eq_bind, Option.some_bind]
    have : 16 * (b / 16) + b % 16 = b := by omega
    simp [this]

theorem toAccount_ofAccount (a : Account) (h : ∀ b ∈ a.data, b < 256) :
    JsonAccount.toAccount (JsonAccount.ofAccount a) = some a := by
  simp [JsonAccount.toAccount, JsonAccount.ofAccount, hexDecode_hexEncode a.data h]

theorem decodeEntries_map_ofAccount (entries : List (Pubkey × Account))
    (h : ∀ p ∈ entries, ∀ b ∈ p.2.data, b < 256) :
    decodeEntries (entries.map (fun e => (e.1, JsonAccount.ofAccount e.2)))
      = some entries := by
  induction entries with
  | nil => rfl
  | cons p rest ih =>
    have hp : JsonAccount.toAccount (JsonAccount.ofAccount p.2) = some p.2 :=
      toAccount_ofAccount p.2 (h p (List.mem_cons_self p rest))
    have hrest := ih (fun q hq => h q (List.mem_cons_of_mem p hq))
    simp [decodeEntries, hp, hrest]

/-- C6: overlay persistence round-trips exactly.  The record-level
serialization used by the flush (Account to hex-encoded JsonAccount) and
the deserialization used by the load are mutually inverse on every
account record; consequently a flushed overlay, reloaded from the same
path, carries exactly the entries that were flushed, field for field. -/
theorem scenario_roundtrip (a : Account) (entries : List (Pubkey × Account))
    (s : Scenario) (p : Nat) (repr : List (Pubkey × JsonAccount)) :
    ((∀ b ∈ a.data, b < 256) →
      JsonAccount.toAccount (JsonAccount.ofAccount a) = some a) ∧
    ((∀ q ∈ entries, ∀ b ∈ q.2.data, b < 256) →
      decodeEntries (entries.map (fun e => (e.1, JsonAccount.ofAccount e.2)))
        = some entries) ∧
    (s.dropOutput = some (p, repr) →
      (∀ q ∈ s.data, ∀ b ∈ q.2.data, b < 256) →
      Scenario.from_file p (some repr)
        = some { should_persist := true, dirty := false, data := s.data,
                 path := some p, rpc_client := none }) := by
  refine ⟨toAccount_ofAccount a, decodeEntries_map_ofAccount entries,
    fun hdrop hvalid => ?_⟩
  have hrepr : repr = s.data.map (fun e => (e.1, JsonAccount.ofAccount e.2)) := by
    simp only [Scenario.dropOutput] at hdrop
    split at hdrop
    · cases hpath : s.path with
      | none =>
        rw [hpath] at hdrop
        exact absurd hdrop (by simp)
      | some q =>
        rw [hpath] at hdrop
        simp at hdrop
        exact hdrop.2.symm
    · exact absurd hdrop (by simp)
  subst hrepr
  simp [Scenario.from_file, decodeEntries_map_ofAccount s.data hvalid]

/-- A concrete record with nontrivial fields for the C6 witness. -/
def aW : Account :=
  { lamports := 7, data := [0, 255], owner := 3, executable := true,
    rent_epoch := 9 }

/-- C6 witness: the round-trip instantiated on a concrete record (with a
0x00 and a 0xff data byte) and a concrete dirty overlay flushed to path 0
and reloaded. -/
theorem scenario_roundtrip_witness :
    JsonAccount.toAccount (JsonAccount.ofAccount aW) = some aW ∧
    decodeEntries ([(4, aW)].map (fun e => (e.1, JsonAccount.ofAccount e.2)))
      = some [(4, aW)] ∧
    Scenario.from_file 0 (some [(4, JsonAccount.ofAccount aW)])
      = some { should_persist := true, dirty := false, data := [(4, aW)],
               path := some 0, rpc_client := none } :=
  ⟨(scenario_roundtrip aW [(4, aW)]
      { should_persist := true, dirty := true, data := [(4, aW)],
        path := some 0, rpc_client := none } 0
      [(4, JsonAccount.ofAccount aW)]).1 (by decide),
   (scenario_roundtrip aW [(4, aW)]
      { should_persist := true, dirty := true, data := [(4, aW)],
        path := some 0, rpc_client := none } 0
      [(4, JsonAccount.ofAccount aW)]).2.1 (by decide),
   (scenario_roundtrip aW [(4, aW)]
      { should_persist := true, dirty := true, data := [(4, aW)],
        path := some 0, rpc_client := none } 0
      [(4, JsonAccount.ofAccount aW)]).2.2 (by rfl) (by decide)⟩

/- ---------------------------------------------------------------------
C4: account assembly for an instruction.
--------------------------------------------------------------------- -/

theorem accountsForRefs_uninitialized (metas : List AccountMeta)
    (acc : List (Pubkey × AccountSharedData)) (db : AccountsDb) :
    accountsForRefs true metas acc db
      = .ok (acc ++ metas.map (fun meta =>
          (meta.pubkey, (db.account_maybe meta.pubkey).getD Account.default)),
        db) := by
  induction metas generalizing acc with
  | nil => simp [accountsForRefs]
  | cons meta rest ih =>
    simp [accountsForRefs, ih]

theorem accountsForRefs_required_resolved (metas : List AccountMeta)
    (acc : List (Pubkey × AccountSharedData)) (db : AccountsDb)
    (h : ∀ meta ∈ metas, (db.account_maybe meta.pubkey).isSome = true) :
    accountsForRefs false metas acc db
      = .ok (acc ++ metas.map (fun meta =>
          (meta.pubkey, (db.account_maybe meta.pubkey).getD Account.default)),
        db) := by
  induction metas generalizing acc with
  | nil => simp [accountsForRefs]
  | cons meta rest ih =>
    obtain ⟨a, ha⟩ := Option.isSome_iff_exists.mp
      (h meta (List.mem_cons_self meta rest))
    have haccount : db.account meta.pubkey = .ok (a, db) := by
      simp [AccountsDb.account, ha]
    simp only [accountsForRefs, if_false, Bool.false_eq_true, haccount]
    rw [ih (acc ++ [(meta.pubkey, a)])
        (fun m hm => h m (List.mem_cons_of_mem meta hm))]
    simp [ha]

theorem accountsForRefs_keys (flag : Bool) (metas : List AccountMeta)
    (acc : List (Pubkey × Account)) (db : AccountsDb)
    (lst : List (Pubkey × Account)) (db' : AccountsDb)
    (h : accountsForRefs flag metas acc db = .ok (lst, db')) :
    lst.map (fun p => p.1)
      = acc.map (fun p => p.1) ++ metas.map (fun m => m.pubkey) := by
  induction metas generalizing acc db with
  | nil =>
    simp only [accountsForRefs, Except.ok.injEq, Prod.mk.injEq] at h
    rw [← h.1]
    simp
  | cons meta rest ih =>
    cases flag with
    | true =>
      simp only [accountsForRefs, if_true] at h
      rw [ih _ _ h]
      simp
    | false =>
      simp only [accountsForRefs, Bool.false_eq_true, if_false] at h
      cases ha : db.account meta.pubkey with
      | error e => rw [ha] at h; cases h
      | ok r =>
        rw [ha] at h
        rw [ih _ _ h]
        simp

/-- C4: accounts_for_instruction always resolves the program id with the
failing lookup and places it first, whatever the flag: a failing program
resolution fails the whole call for either flag value, and a successful
one yields the program pair first followed by one pair per reference in
instruction order.  With allow_uninitialized_accounts set, a reference
unresolved by the non-failing chain becomes the freshly zeroed default
record (explicitly: zero balance, empty data, default owner) instead of
failing; with the flag clear, references are resolved by the failing
lookup (shown here when the chain resolves them). -/
theorem accounts_for_instruction_spec (db : AccountsDb) (ixn : Instruction) :
    (∀ flag : Bool, ∀ e, db.account ixn.program_id = .error e →
      db.accounts_for_instruction flag ixn = .error e) ∧
    (∀ pa db1, db.account ixn.program_id = .ok (pa, db1) →
      db.accounts_for_instruction true ixn
        = .ok ((ixn.program_id, pa) ::
            ixn.accounts.map (fun meta =>
              (meta.pubkey,
                (db1.account_maybe meta.pubkey).getD Account.default)),
          db1)) ∧
    (∀ pa db1, db.account ixn.program_id = .ok (pa, db1) →
      (∀ meta ∈ ixn.accounts, (db1.account_maybe meta.pubkey).isSome = true) →
      db.accounts_for_instruction false ixn
        = .ok ((ixn.program_id, pa) ::
            ixn.accounts.map (fun meta =>
              (meta.pubkey,
                (db1.account_maybe meta.pubkey).getD Account.default)),
          db1)) ∧
    (∀ flag : Bool, ∀ lst db',
      db.accounts_for_instruction flag ixn = .ok (lst, db') →
      lst.map (fun p => p.1)
        = ixn.program_id :: ixn.accounts.map (fun m => m.pubkey)) ∧
    Account.default
      = { lamports := 0, data := [], owner := systemProgramId,
          executable := false, rent_epoch := 0 } := by
  refine ⟨fun flag e he => ?_, fun pa db1 hok => ?_, fun pa db1 hok hres => ?_,
    fun flag lst db' hok => ?_, rfl⟩
  · simp [AccountsDb.accounts_for_instruction, he]
  · simp only [AccountsDb.accounts_for_instruction, hok]
    rw [accountsForRefs_uninitialized]
    simp
  · simp only [AccountsDb.accounts_for_instruction, hok]
    rw [accountsForRefs_required_resolved ixn.accounts _ db1 hres]
    simp
  · simp only [AccountsDb.accounts_for_instruction] at hok
    cases hacct : db.account ixn.program_id with
    | error e => rw [hacct] at hok; cases hok
    | ok r =>
      rw [hacct] at hok
      rw [accountsForRefs_keys flag ixn.accounts _ r.2 lst db' hok]
      simp

/-- A loaded program record for the C4 witness. -/
def progAcct : Account :=
  { lamports := 1, data := [], owner := 0, executable := true, rent_epoch := 0 }

/-- A store holding only the program account 7, for the C4 witness. -/
def dbC4 : AccountsDb :=
  { scenario := Scenario.default, accounts := [(7, progAcct)],
    sysvars := Sysvars.default }

/-- An instruction referencing the absent account 9. -/
def ixnA : Instruction := ⟨7, [⟨9, false, false⟩], []⟩

/-- An instruction referencing the (present) program account itself. -/
def ixnB : Instruction := ⟨7, [⟨7, true, false⟩], []⟩

/-- C4 witness: with allow_uninitialized_accounts the absent reference 9
becomes the zeroed default record; with the flag clear a resolvable
reference is returned from the store; the program pair is first in both. -/
theorem accounts_for_instruction_spec_witness :
    dbC4.accounts_for_instruction true ixnA
      = .ok ([(7, progAcct), (9, Account.default)], dbC4) ∧
    dbC4.accounts_for_instruction false ixnB
      = .ok ([(7, progAcct), (7, progAcct)], dbC4) :=
  ⟨(accounts_for_instruction_spec dbC4 ixnA).2.1 progAcct dbC4 (by rfl),
   (accounts_for_instruction_spec dbC4 ixnB).2.2.1 progAcct dbC4 (by rfl)
     (by decide)⟩

/- ---------------------------------------------------------------------
C10: airdrop.
--------------------------------------------------------------------- -/

/-- C10 (counterexample): airdropping to an identifier that resolves via
the chain does NOT always leave the stored balance at prior + amount: at
a recognized sysvar identifier (the clock), the write is routed to
Sysvars::set, which deserializes only the data and discards the lamports;
the stored record afterwards reports balance 0, not 0 + 5. -/
theorem airdrop_sysvar_drops_balance :
    (Seashell.airdrop AccountsDb.default clockId 5).toOption.map
        (fun db => (db.account_maybe clockId).map (fun a => a.lamports))
      = some (some 0) ∧
    (AccountsDb.default.account_maybe clockId).map (fun a => a.lamports)
      = some 0 ∧
    (0 : Nat) + 5 ≠ 0 :=
  ⟨by decide, by decide, by decide⟩

/-- C10 amended: for every identifier that is not a recognized system
variable, airdrop never fails and never consults the remote fallback (the
scenario overlay, its dirty flag included, is untouched — visible in the
unchanged `db.scenario` on the right-hand sides): when the chain resolves
the identifier, the stored record is the resolved record with balance
prior + amount and data, owner, executable and epoch unchanged; when the
identifier is absent from every layer, the stored record has balance
amount, empty data and the system program as owner. -/
theorem airdrop_non_sysvar_spec (db : AccountsDb) (k : Pubkey) (amount : Nat)
    (hk : Sysvars.is_sysvar k = false) :
    (∀ a, db.account_maybe k = some a → a.lamports + amount < 2 ^ 64 →
      Seashell.airdrop db k amount
        = .ok { db with accounts :=
          (mapInsert db.accounts k ({ a with lamports := a.lamports + amount })) }) ∧
    (db.account_maybe k = none → amount < 2 ^ 64 →
      Seashell.airdrop db k amount
        = .ok { db with accounts :=
          (mapInsert db.accounts k ⟨amount, [], systemProgramId, false, 0⟩) }) := by
  constructor
  · intro a ha hlt
    have h2 : (a.lamports + amount) % 18446744073709551616
        = a.lamports + amount := Nat.mod_eq_of_lt (by simpa using hlt)
    simp [Seashell.airdrop, ha, AccountsDb.set_account, hk, h2]
  · intro ha hlt
    have h2 : amount % 18446744073709551616 = amount :=
      Nat.mod_eq_of_lt (by simpa using hlt)
    simp [Seashell.airdrop, ha, AccountsDb.set_account, hk, h2]

/-- C10 witness: airdropping 3 to the present account 7 yields balance 4
with all other fields kept; airdropping 7 to the absent account 5 creates
the system-owned record with balance 7. -/
theorem airdrop_non_sysvar_spec_witness :
    Seashell.airdrop dbC4 7 3
      = .ok { dbC4 with accounts :=
          (mapInsert dbC4.accounts 7 ({ progAcct with lamports := 1 + 3 })) } ∧
    Seashell.airdrop AccountsDb.default 5 7
      = .ok { AccountsDb.default with accounts :=
          (mapInsert AccountsDb.default.accounts 5 ⟨7, [], systemProgramId, false, 0⟩) } :=
  ⟨(airdrop_non_sysvar_spec dbC4 7 3 (by decide)).1 progAcct (by decide)
      (by decide),
   (airdrop_non_sysvar_spec AccountsDb.default 5 7 (by decide)).2 (by decide)
      (by decide)⟩

/- ---------------------------------------------------------------------
C9: the memoization policy.
--------------------------------------------------------------------- -/

/-- Spec-side description of the post-execution account list returned to
the caller: each transaction pair carries the context's post-execution
record when its pubkey is found there, and the pre-execution record
otherwise (following the spec's words, to be compared with reconcile). -/
def specPostAccounts (ctx tx : List (Pubkey × Account)) :
    List (Pubkey × Account) :=
  tx.map (fun p =>
    match find_index_of_account ctx p.1 with
    | some i => (p.1, ((ctx.get? i).map (fun q => q.2)).getD p.2)
    | none => p)

theorem except_map_ok {α β : Type} (f : α → β) (e : Except Failure α) (b : β)
    (h : e.map f = .ok b) : ∃ a, e = .ok a ∧ f a = b := by
  cases e with
  | ok a => exact ⟨a, rfl, Except.ok.inj h⟩
  | error x => exact absurd h (by simp [Except.map])

theorem set_account_ok_parts (db : AccountsDb) (k : Pubkey) (a : Account)
    (db' : AccountsDb) (h : db.set_account k a = .ok db') :
    db'.scenario = db.scenario ∧
    ((Sysvars.is_sysvar k = true ∧ db'.accounts = db.accounts) ∨
     (Sysvars.is_sysvar k = false ∧ db'.accounts = mapInsert db.accounts k a)) := by
  cases hk : Sysvars.is_sysvar k with
  | true =>
    simp only [AccountsDb.set_account, hk, if_true] at h
    obtain ⟨sv, hsv, hdb⟩ := except_map_ok _ _ _ h
    rw [← hdb]
    exact ⟨rfl, .inl ⟨rfl, rfl⟩⟩
  | false =>
    simp only [AccountsDb.set_account, hk, Bool.false_eq_true, if_false,
      Except.ok.injEq] at h
    rw [← h]
    exact ⟨rfl, .inr ⟨rfl, rfl⟩⟩

theorem reconcile_no_memoize (tx : List (Pubkey × Account)) (db : AccountsDb)
    (ctx : List (Pubkey × Account)) :
    reconcile false db tx ctx = .ok (specPostAccounts ctx tx, db) := by
  induction tx generalizing db with
  | nil => rfl
  | cons p rest ih =>
    cases hf : find_index_of_account ctx p.1 with
    | some i => simp [reconcile, hf, ih, specPostAccounts, Except.map]
    | none => simp [reconcile, hf, ih, specPostAccounts, Except.map]

theorem reconcile_memoize_writes (tx : List (Pubkey × Account))
    (ctx : List (Pubkey × Account)) (db : AccountsDb)
    (out : List (Pubkey × Account)) (db' : AccountsDb)
    (h : reconcile true db tx ctx = .ok (out, db')) (k : Pubkey)
    (hk : Sysvars.is_sysvar k = false) :
    out = specPostAccounts ctx tx ∧
    db'.scenario = db.scenario ∧
    (tx.any (fun p => p.1 == k) = false →
      mapGet db'.accounts k = mapGet db.accounts k) ∧
    (∀ i v, tx.any (fun p => p.1 == k) = true →
      find_index_of_account ctx k = some i →
      (ctx.get? i).map (fun q => q.2) = some v →
      mapGet db'.accounts k = some v) := by
  induction tx generalizing db out db' with
  | nil =>
    simp only [reconcile, Except.ok.injEq, Prod.mk.injEq] at h
    refine ⟨h.1.symm, by rw [← h.2], fun _ => by rw [← h.2],
      fun i v hany _ _ => ?_⟩
    simp at hany
  | cons p rest ih =>
    cases hf : find_index_of_account ctx p.1 with
    | some idx =>
      simp only [reconcile, hf, if_true] at h
      cases hset : db.set_account p.1
          (((ctx.get? idx).map (fun q => q.2)).getD p.2) with
      | error e => rw [hset] at h; simp at h
      | ok db1 =>
        rw [hset] at h
        obtain ⟨r, hrec, hout⟩ := except_map_ok _ _ _ h
        simp only [Prod.mk.injEq] at hout
        have hdb' : db' = r.2 := hout.2.symm
        obtain ⟨hsc1, hacc1⟩ := set_account_ok_parts db p.1 _ db1 hset
        obtain ⟨ho, hsc, hframe, hwrite⟩ := ih db1 r.1 r.2 (by rw [hrec])
        refine ⟨?_, ?_, ?_, ?_⟩
        · rw [← hout.1, ho]
          simp [specPostAccounts, hf]
        · rw [hdb', hsc, hsc1]
        · intro hany
          simp only [List.any_cons, Bool.or_eq_false_iff] at hany
          rw [hdb', hframe hany.2]
          rcases hacc1 with ⟨_, heq⟩ | ⟨hkp, heq⟩
          · rw [heq]
          · rw [heq, mapGet_insert_ne db.accounts p.1 k _ ?_]
            intro hcontra
            rw [hcontra] at hany
            simp at hany
        · intro i v hany hfind hget
          by_cases hrestany : rest.any (fun p => p.1 == k) = true
          · rw [hdb']
            exact hwrite i v hrestany hfind hget
          · have hpk : p.1 = k := by
              simp only [List.any_cons, Bool.or_eq_true] at hany
              rcases hany with hany | hany
              · exact beq_iff_eq.mp hany
              · exact absurd hany hrestany
            subst hpk
            rw [hdb', hframe (Bool.eq_false_iff.mpr hrestany)]
            rcases hacc1 with ⟨hkp, _⟩ | ⟨_, heq⟩
            · rw [hkp] at hk; simp at hk
            · rw [heq, mapGet_insert_self]
              rw [hf] at hfind
              have hidx : idx = i := by simpa using hfind
              rw [hidx, hget]
              rfl
    | none =>
      simp only [reconcile, hf] at h
      obtain ⟨r, hrec, hout⟩ := except_map_ok _ _ _ h
      simp only [Prod.mk.injEq] at hout
      have hdb' : db' = r.2 := hout.2.symm
      obtain ⟨ho, hsc, hframe, hwrite⟩ := ih db r.1 r.2 (by rw [hrec])
      refine ⟨?_, ?_, ?_, ?_⟩
      · rw [← hout.1, ho]
        simp [specPostAccounts, hf]
      · rw [hdb', hsc]
      · intro hany
        simp only [List.any_cons, Bool.or_eq_false_iff] at hany
        rw [hdb', hframe hany.2]
      · intro i v hany hfind hget
        by_cases hrestany : rest.any (fun p => p.1 == k) = true
        · rw [hdb']
          exact hwrite i v hrestany hfind hget
        · have hpk : p.1 = k := by
            simp only [List.any_cons, Bool.or_eq_true] at hany
            rcases hany with hany | hany
            · exact beq_iff_eq.mp hany
            · exact absurd hany hrestany
          rw [hpk] at hf
          rw [hf] at hfind
          cases hfind

/-- The pre-execution record of the C9 counterexample's overlay account. -/
def aOld : Account :=
  { lamports := 7, data := [], owner := 0, executable := false, rent_epoch := 0 }

/-- The post-execution record the engine reports for that account. -/
def aNew : Account :=
  { lamports := 9, data := [], owner := 0, executable := false, rent_epoch := 0 }

/-- The C9 counterexample's overlay, already holding account 5. -/
def scC9 : Scenario :=
  { should_persist := false, dirty := false, data := [(5, aOld)],
    path := none, rpc_client := none }

/-- A store whose scenario overlay already holds account 5. -/
def dbC9 : AccountsDb :=
  { scenario := scC9, accounts := [], sysvars := Sysvars.default }

/-- C9 (counterexample): with memoize enabled the post-execution value is
written back through set_account — into the base map — but an identifier
held by the scenario overlay still resolves to the overlay's old value
afterwards, because the overlay outranks the base store; so "a subsequent
instruction resolves those updated values" fails on an overlay-shadowed
account. -/
theorem memoize_writeback_shadowed_by_overlay :
    (reconcile true dbC9 [(5, aOld)] [(5, aNew)]).toOption.map
        (fun r => (r.1, r.2.account_maybe 5, mapGet r.2.accounts 5))
      = some ([(5, aNew)], some aOld, some aNew) ∧
    aOld ≠ aNew :=
  ⟨by rfl, by decide⟩

/-- C9 amended: without memoize, reconciliation returns the post-execution
values but leaves the store fully unchanged; with memoize, each found
account's post-execution value is written back through set_account before
the result is returned (the scenario overlay is untouched), and a
subsequent lookup resolves that written value provided the identifier is
neither a recognized system variable nor present in the scenario overlay
(both of which outrank the base store that memoization writes to). -/
theorem process_memoize_policy (db : AccountsDb)
    (tx ctx : List (Pubkey × Account)) :
    reconcile false db tx ctx = .ok (specPostAccounts ctx tx, db) ∧
    (∀ out db', reconcile true db tx ctx = .ok (out, db') →
      out = specPostAccounts ctx tx ∧ db'.scenario = db.scenario) ∧
    (∀ out db' k i v, reconcile true db tx ctx = .ok (out, db') →
      Sysvars.is_sysvar k = false →
      db.scenario.get k = none →
      tx.any (fun p => p.1 == k) = true →
      find_index_of_account ctx k = some i →
      (ctx.get? i).map (fun q => q.2) = some v →
      db'.account_maybe k = some v) := by
  refine ⟨reconcile_no_memoize tx db ctx,
    fun out db' h => ?_, fun out db' k i v h hk hsc hany hfind hget => ?_⟩
  · obtain ⟨ho, hscen, _, _⟩ := reconcile_memoize_writes tx ctx db out db' h
      (clockId + stakeHistoryId) (by decide)
    exact ⟨ho, hscen⟩
  · obtain ⟨_, hscen, _, hwrite⟩ := reconcile_memoize_writes tx ctx db out db' h k hk
    have hmap := hwrite i v hany hfind hget
    simp only [AccountsDb.account_maybe, hk, Bool.false_eq_true, if_false,
      Scenario.get]
    rw [show db'.scenario.data = db.scenario.data from congrArg Scenario.data hscen]
    have hnone : mapGet db.scenario.data k = none := hsc
    rw [hnone, hmap]

/-- C9 witness: the policy applied to a one-account transaction on the
default (empty-overlay) store: disabling memoize hands back the engine's
value and the untouched store; enabling memoize makes the subsequent
lookup of the (non-sysvar, non-overlay) account 5 return the engine's
value. -/
theorem process_memoize_policy_witness :
    reconcile false AccountsDb.default [(5, aOld)] [(5, aNew)]
      = .ok (specPostAccounts [(5, aNew)] [(5, aOld)], AccountsDb.default) ∧
    ({ AccountsDb.default with
        accounts := mapInsert AccountsDb.default.accounts 5 aNew } : AccountsDb).account_maybe 5
      = some aNew :=
  ⟨(process_memoize_policy AccountsDb.default [(5, aOld)] [(5, aNew)]).1,
   (process_memoize_policy AccountsDb.default [(5, aOld)] [(5, aNew)]).2.2
      [(5, aNew)]
      { AccountsDb.default with
        accounts := mapInsert AccountsDb.default.accounts 5 aNew }
      5 0 aNew (by rfl) (by decide) (by rfl) (by decide) (by rfl) (by rfl)⟩

/- ---------------------------------------------------------------------
C2 / C3: the instruction-account compiler.
--------------------------------------------------------------------- -/

/-- Spec-side: the distinct identifiers of a list in first-seen order,
relative to identifiers already seen. -/
def firstSeenFrom (seen : List Pubkey) : List Pubkey → List Pubkey
  | [] => []
  | k :: rest =>
    if seen.contains k then firstSeenFrom seen rest
    else k :: firstSeenFrom (seen ++ [k]) rest

/-- Spec-side: OR of is_signer over every reference to `k`. -/
def mergedSigner (metas : List AccountMeta) (k : Pubkey) : Bool :=
  metas.any (fun m => m.pubkey == k && m.is_signer)

/-- Spec-side: OR of is_writable over every reference to `k`. -/
def mergedWritable (metas : List AccountMeta) (k : Pubkey) : Bool :=
  metas.any (fun m => m.pubkey == k && m.is_writable)

/-- IndexMap lookup by key (first matching entry). -/
def imLookup (m : List (Pubkey × Bool × Bool)) (k : Pubkey) :
    Option (Bool × Bool) :=
  (m.find? (fun e => e.1 == k)).map (fun e => e.2)

theorem imLookup_cons (k1 : Pubkey) (s1 w1 : Bool)
    (l : List (Pubkey × Bool × Bool)) (k' : Pubkey) :
    imLookup ((k1, s1, w1) :: l) k'
      = if (k1 == k') = true then some (s1, w1) else imLookup l k' := by
  cases h : (k1 == k') with
  | true => simp [imLookup, List.find?, h]
  | false => simp [imLookup, List.find?, h]

theorem imUpsert_keys (m : List (Pubkey × Bool × Bool)) (k : Pubkey)
    (s w : Bool) :
    (imUpsert m k s w).map (fun e => e.1)
      = if (m.map (fun e => e.1)).contains k = true then m.map (fun e => e.1)
        else m.map (fun e => e.1) ++ [k] := by
  induction m with
  | nil => simp [imUpsert]
  | cons e rest ih =>
    obtain ⟨k1, s1, w1⟩ := e
    cases hek : (k1 == k) with
    | true =>
      have he : k1 = k := beq_iff_eq.mp hek
      subst he
      have hcontains : ((k1 :: rest.map (fun e => e.1)).contains k1) = true := by
        simp [List.contains_cons]
      simp only [imUpsert, hek, if_true, List.map_cons, hcontains]
    | false =>
      have hke : (k == k1) = false := by
        simp only [beq_eq_false_iff_ne] at hek ⊢
        exact Ne.symm hek
      simp only [imUpsert, hek, Bool.false_eq_true, if_false, List.map_cons, ih]
      simp only [List.contains_cons, hke, Bool.false_or]
      cases hc : (rest.map (fun e => e.1)).contains k with
      | true => simp
      | false => simp

theorem imUpsert_lookup (m : List (Pubkey × Bool × Bool)) (k k' : Pubkey)
    (s w : Bool) :
    imLookup (imUpsert m k s w) k'
      = if k' = k then
          (match imLookup m k with
           | some v => some (v.1 || s, v.2 || w)
           | none => some (s, w))
        else imLookup m k' := by
  induction m with
  | nil =>
    by_cases hk : k' = k
    · subst hk
      simp [imUpsert, imLookup, List.find?]
    · have h1 : (k == k') = false := by
        simp only [beq_eq_false_iff_ne]
        exact Ne.symm hk
      simp [imUpsert, imLookup, List.find?, hk, h1]
  | cons e rest ih =>
    obtain ⟨k1, s1, w1⟩ := e
    cases hek : (k1 == k) with
    | true =>
      have he : k1 = k := beq_iff_eq.mp hek
      subst he
      simp only [imUpsert, hek, if_true]
      rw [imLookup_cons, imLookup_cons]
      cases hk1 : (k1 == k') with
      | true =>
        have hkk : k' = k1 := (beq_iff_eq.mp hk1).symm
        simp [hkk]
      | false =>
        have hkk : ¬(k' = k1) := fun hc => by
          rw [hc] at hk1
          simp at hk1
        simp [hkk, imLookup_cons, hk1]
    | false =>
      simp only [imUpsert, hek, Bool.false_eq_true, if_false]
      rw [imLookup_cons]
      cases hk1 : (k1 == k') with
      | true =>
        have hkk : k' = k1 := (beq_iff_eq.mp hk1).symm
        have hk'ne : ¬(k' = k) := fun hc => by
          rw [hkk] at hc
          rw [hc] at hek
          simp at hek
        simp [hk'ne, imLookup_cons, hk1]
      | false =>
        rw [ih, imLookup_cons, imLookup_cons, hek, hk1]
        simp

/-- The flag-accumulation step of compile_accounts_for_instruction. -/
def upsertMeta (m : List (Pubkey × Bool × Bool)) (account : AccountMeta) :
    List (Pubkey × Bool × Bool) :=
  imUpsert m account.pubkey account.is_signer account.is_writable

theorem buildAccountMap_eq_foldl (ixn : Instruction) :
    buildAccountMap ixn
      = ixn.accounts.foldl upsertMeta [(ixn.program_id, false, false)] := rfl

theorem foldl_upsert_keys (metas : List AccountMeta)
    (m : List (Pubkey × Bool × Bool)) :
    (metas.foldl upsertMeta m).map (fun e => e.1)
      = m.map (fun e => e.1)
        ++ firstSeenFrom (m.map (fun e => e.1)) (metas.map (fun a => a.pubkey)) := by
  induction metas generalizing m with
  | nil => simp [firstSeenFrom]
  | cons a rest ih =>
    simp only [List.foldl_cons, List.map_cons, firstSeenFrom]
    cases hc : (m.map (fun e => e.1)).contains a.pubkey with
    | true =>
      rw [ih, upsertMeta, imUpsert_keys, if_pos hc]
      simp
    | false =>
      rw [ih, upsertMeta, imUpsert_keys, if_neg (by rw [hc]; simp)]
      simp [List.append_assoc]

theorem foldl_upsert_lookup (metas : List AccountMeta)
    (m : List (Pubkey × Bool × Bool)) (k : Pubkey) :
    imLookup (metas.foldl upsertMeta m) k
      = match imLookup m k with
        | some v =>
          some (v.1 || mergedSigner metas k, v.2 || mergedWritable metas k)
        | none =>
          if (metas.any (fun a => a.pubkey == k)) = true then
            some (mergedSigner metas k, mergedWritable metas k)
          else none := by
  induction metas generalizing m with
  | nil =>
    cases h : imLookup m k <;>
      simp [mergedSigner, mergedWritable, h]
  | cons a rest ih =>
    simp only [List.foldl_cons]
    rw [ih, upsertMeta, imUpsert_lookup]
    by_cases hak : k = a.pubkey
    · subst hak
      rw [if_pos rfl]
      simp only [mergedSigner, mergedWritable, List.any_cons, beq_self_eq_true,
        Bool.true_and, Bool.true_or]
      cases h : imLookup m a.pubkey with
      | some v => simp [Bool.or_assoc]
      | none => simp
    · have hbeq : (a.pubkey == k) = false := by
        simp only [beq_eq_false_iff_ne]
        exact fun hc => hak hc.symm
      simp only [if_neg hak, mergedSigner, mergedWritable, List.any_cons, hbeq,
        Bool.false_and, Bool.false_or]

theorem findIdx_get (m : List (Pubkey × Bool × Bool)) (k : Pubkey) (r : Nat)
    (h : (m.map (fun e => e.1)).findIdx? (fun x => x == k) = some r) :
    ∃ v, m.get? r = some (k, v) ∧ imLookup m k = some v := by
  induction m generalizing r with
  | nil => simp at h
  | cons e rest ih =>
    obtain ⟨k1, s1, w1⟩ := e
    simp only [List.map_cons, List.findIdx?_cons] at h
    cases hek : (k1 == k) with
    | true =>
      rw [hek] at h
      simp only [if_true] at h
      have hr : r = 0 := by
        have := h
        simp at this
        omega
      subst hr
      have hk : k1 = k := beq_iff_eq.mp hek
      subst hk
      exact ⟨(s1, w1), rfl, by simp [imLookup_cons]⟩
    | false =>
      rw [hek] at h
      simp only [Bool.false_eq_true, if_false, List.findIdx?_start_succ,
        Nat.zero_add] at h
      cases hfind : (rest.map (fun e => e.1)).findIdx? (fun x => x == k) with
      | none => rw [hfind] at h; simp at h
      | some r' =>
        rw [hfind] at h
        simp at h
        obtain ⟨v, hv1, hv2⟩ := ih r' hfind
        refine ⟨v, ?_, ?_⟩
        · rw [← h]
          simpa using hv1
        · rw [imLookup_cons, if_neg (by simp [hek])]
          exact hv2

theorem firstSeenFrom_mem (l : List Pubkey) :
    ∀ (seen : List Pubkey) (k : Pubkey), k ∈ l → seen.contains k = false →
      k ∈ firstSeenFrom seen l := by
  induction l with
  | nil => intro seen k hk _; simp at hk
  | cons k1 rest ih =>
    intro seen k hk hseen
    by_cases hkk : k = k1
    · subst hkk
      rw [firstSeenFrom, hseen]
      simp
    · have hk' : k ∈ rest := by
        cases hk with
        | head => exact absurd rfl hkk
        | tail _ h => exact h
      cases hc : seen.contains k1 with
      | true =>
        rw [firstSeenFrom, hc]
        simp only [if_true]
        exact ih seen k hk' hseen
      | false =>
        rw [firstSeenFrom, hc]
        simp only [Bool.false_eq_true, if_false]
        refine List.mem_cons_of_mem k1 (ih (seen ++ [k1]) k hk' ?_)
        have hbeq : (k == k1) = false := by simp [hkk]
        rw [List.contains_eq_any_beq, List.any_append]
        rw [List.contains_eq_any_beq] at hseen
        simp [hseen, hbeq]

/-- The compiler's IndexMap keys are exactly the distinct identifiers of
[program, ref identifiers...] in first-seen order. -/
theorem buildAccountMap_keys (ixn : Instruction) :
    (buildAccountMap ixn).map (fun e => e.1)
      = firstSeenFrom []
          (ixn.program_id :: ixn.accounts.map (fun m => m.pubkey)) := by
  rw [buildAccountMap_eq_foldl, foldl_upsert_keys]
  rw [firstSeenFrom]
  simp [firstSeenFrom, List.contains_eq_any_beq]

/-- One compiled entry, characterized: for the i-th reference the entry
exists, its transaction (and caller) index is the position of the
reference's identifier among the distinct identifiers of
[program, ref identifiers...] in first-seen order, and its flags are the
OR over all of that identifier's references.  The 256-key bound keeps the
`as u8` cast the identity. -/
theorem compile_entry (ixn : Instruction) (i : Nat) (meta : AccountMeta)
    (hmeta : ixn.accounts.get? i = some meta)
    (h256 : (firstSeenFrom []
        (ixn.program_id :: ixn.accounts.map (fun m => m.pubkey))).length ≤ 256) :
    ∃ r, (firstSeenFrom []
        (ixn.program_id :: ixn.accounts.map (fun m => m.pubkey))).findIdx?
          (fun x => x == meta.pubkey) = some r ∧
      ((compile_accounts_for_instruction ixn).get? i).map
        (fun e => e.index_in_transaction) = some r ∧
      ((compile_accounts_for_instruction ixn).get? i).map
        (fun e => e.index_in_caller) = some r ∧
      ((compile_accounts_for_instruction ixn).get? i).map
        (fun e => e.is_signer) = some (mergedSigner ixn.accounts meta.pubkey) ∧
      ((compile_accounts_for_instruction ixn).get? i).map
        (fun e => e.is_writable) = some (mergedWritable ixn.accounts meta.pubkey) := by
  set ks := firstSeenFrom []
    (ixn.program_id :: ixn.accounts.map (fun m => m.pubkey)) with hks
  have hkeys : (buildAccountMap ixn).map (fun e => e.1) = ks :=
    buildAccountMap_keys ixn
  have hmem : meta.pubkey ∈ ks := by
    rw [hks]
    refine firstSeenFrom_mem _ [] meta.pubkey ?_ rfl
    exact List.mem_cons_of_mem _ (List.mem_map_of_mem _ (List.get?_mem hmeta))
  have hany : (ks.any (fun x => x == meta.pubkey)) = true := by
    rw [List.any_eq_true]
    exact ⟨meta.pubkey, hmem, by simp⟩
  have hsome : (ks.findIdx? (fun x => x == meta.pubkey)).isSome = true := by
    rw [List.findIdx?_isSome, hany]
  obtain ⟨r, hr⟩ := Option.isSome_iff_exists.mp hsome
  have hrlt : r < ks.length :=
    (List.findIdx?_eq_some_iff_findIdx_eq.mp hr).1
  have hrmod : r % 256 = r := Nat.mod_eq_of_lt (lt_of_lt_of_le hrlt h256)
  obtain ⟨v, hget, hlook⟩ := findIdx_get (buildAccountMap ixn) meta.pubkey r
    (by rw [hkeys]; exact hr)
  have hv : v = (mergedSigner ixn.accounts meta.pubkey,
      mergedWritable ixn.accounts meta.pubkey) := by
    rw [buildAccountMap_eq_foldl, foldl_upsert_lookup, imLookup_cons] at hlook
    cases hpk : (ixn.program_id == meta.pubkey) with
    | true =>
      rw [hpk] at hlook
      simp only [if_true, imLookup, List.find?_nil, Option.map_none,
        Option.some.injEq] at hlook
      rw [← hlook]
      simp
    | false =>
      rw [hpk] at hlook
      have hanyref :
          (ixn.accounts.any (fun a => a.pubkey == meta.pubkey)) = true := by
        rw [List.any_eq_true]
        exact ⟨meta, List.get?_mem hmeta, by simp⟩
      simp [imLookup, hanyref] at hlook
      exact hlook.symm
  have hi : i < ixn.accounts.length := by
    by_contra hcon
    rw [List.get?_eq_none.mpr (Nat.le_of_not_lt hcon)] at hmeta
    cases hmeta
  have hidx : (ixn.accounts.map (fun account_meta =>
      ((((buildAccountMap ixn).map (fun e => e.1)).findIdx?
          (fun k => k == account_meta.pubkey)).getD 0) % 256)).get? i
      = some r := by
    rw [List.get?_map, hmeta]
    simp [hkeys, hr, hrmod]
  refine ⟨r, hr, ?_, ?_, ?_, ?_⟩ <;>
    (simp only [compile_accounts_for_instruction]
     rw [List.get?_map, List.get?_range (by simpa using hi)]
     simp only [Option.map_some', hidx, Option.getD_some]
     try rw [hget]
     try simp [hv])

theorem mergedFlags_perm (l l' : List AccountMeta) (h : l.Perm l') (k : Pubkey) :
    mergedSigner l k = mergedSigner l' k ∧
    mergedWritable l k = mergedWritable l' k := by
  constructor <;>
    (rw [Bool.eq_iff_iff]
     simp only [mergedSigner, mergedWritable, List.any_eq_true]
     exact ⟨fun ⟨x, hx, hf⟩ => ⟨x, h.mem_iff.mp hx, hf⟩,
       fun ⟨x, hx, hf⟩ => ⟨x, h.mem_iff.mpr hx, hf⟩⟩)

/-- C2 amended: the compiler emits exactly one entry per reference in
original order (zero references give an empty output), and — for every
instruction whose distinct identifiers (program included) number at most
256 — the i-th entry's index_in_transaction is the 0-based position of
the i-th reference's identifier in the deduplicated first-seen key
sequence [program, distinct reference identifiers...] (the program is at
position 0 of that sequence, and duplicate references to the same
identifier all carry the same index).  Beyond 256 distinct identifiers
the emitted index is that position reduced modulo 256 (the `as u8`
cast). -/
theorem compile_indices_spec (ixn : Instruction)
    (h256 : (firstSeenFrom []
        (ixn.program_id :: ixn.accounts.map (fun m => m.pubkey))).length ≤ 256) :
    (compile_accounts_for_instruction ixn).length = ixn.accounts.length ∧
    (ixn.accounts = [] → compile_accounts_for_instruction ixn = []) ∧
    (firstSeenFrom []
        (ixn.program_id :: ixn.accounts.map (fun m => m.pubkey))).get? 0
      = some ixn.program_id ∧
    (∀ i meta, ixn.accounts.get? i = some meta →
      ((compile_accounts_for_instruction ixn).get? i).map
          (fun e => e.index_in_transaction)
        = (firstSeenFrom []
            (ixn.program_id :: ixn.accounts.map (fun m => m.pubkey))).findIdx?
              (fun x => x == meta.pubkey)) ∧
    (∀ i j mi mj, ixn.accounts.get? i = some mi →
      ixn.accounts.get? j = some mj → mi.pubkey = mj.pubkey →
      ((compile_accounts_for_instruction ixn).get? i).map
          (fun e => e.index_in_transaction)
        = ((compile_accounts_for_instruction ixn).get? j).map
            (fun e => e.index_in_transaction)) := by
  have hindex : ∀ i meta, ixn.accounts.get? i = some meta →
      ((compile_accounts_for_instruction ixn).get? i).map
          (fun e => e.index_in_transaction)
        = (firstSeenFrom []
            (ixn.program_id :: ixn.accounts.map (fun m => m.pubkey))).findIdx?
              (fun x => x == meta.pubkey) := by
    intro i meta hmeta
    obtain ⟨r, hr, hidx, _, _, _⟩ := compile_entry ixn i meta hmeta h256
    rw [hidx, hr]
  refine ⟨?_, fun hempty => ?_, ?_, hindex, fun i j mi mj hi hj hpk => ?_⟩
  · simp [compile_accounts_for_instruction]
  · simp [compile_accounts_for_instruction, hempty]
  · rw [firstSeenFrom]
    simp
  · rw [hindex i mi hi, hindex j mj hj, hpk]

/-- C3 amended: for every instruction with at most 256 distinct
identifiers (program included), every compiled entry carries is_signer
(resp. is_writable) equal to the logical OR of is_signer (resp.
is_writable) over all references to its identifier; the merged flags are
invariant under permutation of the references, and escalation is
monotonic — appending further references never revokes a granted flag. -/
theorem compile_privilege_escalation (ixn : Instruction)
    (h256 : (firstSeenFrom []
        (ixn.program_id :: ixn.accounts.map (fun m => m.pubkey))).length ≤ 256) :
    (∀ i meta, ixn.accounts.get? i = some meta →
      ((compile_accounts_for_instruction ixn).get? i).map (fun e => e.is_signer)
          = some (mergedSigner ixn.accounts meta.pubkey) ∧
      ((compile_accounts_for_instruction ixn).get? i).map (fun e => e.is_writable)
          = some (mergedWritable ixn.accounts meta.pubkey)) ∧
    (∀ metas' : List AccountMeta, ixn.accounts.Perm metas' → ∀ k,
      mergedSigner ixn.accounts k = mergedSigner metas' k ∧
      mergedWritable ixn.accounts k = mergedWritable metas' k) ∧
    (∀ extra : List AccountMeta, ∀ k,
      (mergedSigner ixn.accounts k = true →
        mergedSigner (ixn.accounts ++ extra) k = true) ∧
      (mergedWritable ixn.accounts k = true →
        mergedWritable (ixn.accounts ++ extra) k = true)) := by
  refine ⟨fun i meta hmeta => ?_, fun metas' hperm k =>
    mergedFlags_perm ixn.accounts metas' hperm k, fun extra k => ?_⟩
  · obtain ⟨r, hr, _, _, hs, hw⟩ := compile_entry ixn i meta hmeta h256
    exact ⟨hs, hw⟩
  · constructor <;>
      (intro h
       simp only [mergedSigner, mergedWritable, List.any_append] at h ⊢
       simp [h])

/-- Program 0 with references [1, 1, 2]: a duplicate precedes the first
occurrence of identifier 2. -/
def ixnC2 : Instruction :=
  ⟨0, [⟨1, false, false⟩, ⟨1, false, false⟩, ⟨2, false, false⟩], []⟩

/-- C2 (counterexample): the claim reads the index off the
non-deduplicated sequence [program, ref_1, ref_2, ...].  For references
[1, 1, 2] under program 0, identifier 2 first occurs at position 3 of
[0, 1, 1, 2], but the compiler assigns index_in_transaction 2 — its rank
among the distinct identifiers [0, 1, 2] — so the claim as stated fails
at the third reference. -/
theorem compile_index_full_list_counterexample :
    ((compile_accounts_for_instruction ixnC2).get? 2).map
        (fun e => e.index_in_transaction) = some 2 ∧
    (ixnC2.program_id :: ixnC2.accounts.map (fun m => m.pubkey)).findIdx
        (fun x => x == 2) = 3 ∧
    (2 : Nat) ≠ 3 :=
  ⟨by decide, by decide, by decide⟩

/-- Program 0 with 256 distinct signer-writable references 1..256: the
257th distinct key's rank (256) overflows the `as u8` cast. -/
def bigIxn : Instruction :=
  ⟨0, (List.range 256).map (fun i => ⟨i + 1, true, true⟩), []⟩

set_option maxRecDepth 100000 in
/-- C3 (counterexample): with 256 distinct reference identifiers the
instruction's 256th reference (identifier 256, signer and writable, rank
256 in the key map) is emitted with index 256 % 256 = 0, and its flags
are read from entry 0 — the program's (false, false) seed — although the
OR over identifier 256's references is true; so the unrestricted claim
fails on instructions with more than 255 distinct reference
identifiers. -/
theorem compile_flag_truncation_counterexample :
    bigIxn.accounts.get? 255 = some ⟨256, true, true⟩ ∧
    mergedSigner bigIxn.accounts 256 = true ∧
    mergedWritable bigIxn.accounts 256 = true ∧
    ((compile_accounts_for_instruction bigIxn).get? 255).map
        (fun e => e.is_signer) = some false ∧
    (some false : Option Bool) ≠ some true :=
  ⟨by decide, by decide, by decide, by decide, by decide⟩

/-- Program 0 with two references to identifier 5, splitting the signer
and writable escalations across the two occurrences. -/
def ixnW : Instruction := ⟨0, [⟨5, true, false⟩, ⟨5, false, true⟩], []⟩

/-- C2 witness: the amended index law on a concrete duplicate-reference
instruction — two entries, program first in the key sequence, the first
entry indexed at the identifier's first-seen rank. -/
theorem compile_indices_spec_witness :
    (compile_accounts_for_instruction ixnW).length = ixnW.accounts.length ∧
    (firstSeenFrom []
        (ixnW.program_id :: ixnW.accounts.map (fun m => m.pubkey))).get? 0
      = some ixnW.program_id ∧
    ((compile_accounts_for_instruction ixnW).get? 0).map
        (fun e => e.index_in_transaction)
      = (firstSeenFrom []
          (ixnW.program_id :: ixnW.accounts.map (fun m => m.pubkey))).findIdx?
            (fun x => x == (5 : Pubkey)) :=
  ⟨(compile_indices_spec ixnW (by decide)).1,
   (compile_indices_spec ixnW (by decide)).2.2.1,
   (compile_indices_spec ixnW (by decide)).2.2.2.1 0 ⟨5, true, false⟩ (by rfl)⟩

/-- C3 witness: escalation on a concrete instruction — the signer flag
granted by the first reference and the writable flag granted by the
second both appear on the first compiled entry, and the merged flags are
unchanged by swapping the two references. -/
theorem compile_privilege_escalation_witness :
    ((compile_accounts_for_instruction ixnW).get? 0).map (fun e => e.is_signer)
      = some (mergedSigner ixnW.accounts 5) ∧
    ((compile_accounts_for_instruction ixnW).get? 1).map (fun e => e.is_writable)
      = some (mergedWritable ixnW.accounts 5) ∧
    mergedSigner ixnW.accounts 5
      = mergedSigner [⟨5, false, true⟩, ⟨5, true, false⟩] 5 :=
  ⟨((compile_privilege_escalation ixnW (by decide)).1 0 ⟨5, true, false⟩
      (by rfl)).1,
   ((compile_privilege_escalation ixnW (by decide)).1 1 ⟨5, false, true⟩
      (by rfl)).2,
   ((compile_privilege_escalation ixnW (by decide)).2.1
      [⟨5, false, true⟩, ⟨5, true, false⟩] (by decide) 5).1⟩
